import Mathlib

/-!
Shallow embedding of the powertask cooperative scheduler
(src/powertask.h, src/powertask_builtin.c, src/example_ABC.c).

Pointers are modelled as `Option Nat` task-ID references (`none` = NULL);
the registry binary tree is an inductive tree of IDs; the per-task runtime
structs live in an association list keyed by task ID.  Fallible C code
(NULL dereference = undefined behaviour, `powertask_fatal` = process abort)
is modelled with `Except Err`.  Task functions are parameters of the
dispatcher: a function reads the state and yields a result code together
with a list of side effects (writes through its buffer pointers, nested
`powertask_make_runnable` calls), which is how the C example's
`function_A` behaves.
-/

namespace Powertask

/-- Result codes from powertask.h. -/
def POWERTASK_RESULT_OK : Nat := 0x1001

/-- C: task did not complete and must be automatically retried. -/
def POWERTASK_RESULT_RETRY : Nat := 0x10FF

/-- C: result codes less than this are invalid. -/
def POWERTASK_RESULT_FIRST : Nat := 0x1000

/-- C: task failed, no output produced (12-bit reason code added). -/
def POWERTASK_RESULT_FAIL_QUIET : Nat := 0x2000

/-- C: task failed, some output produced (12-bit reason code added). -/
def POWERTASK_RESULT_FAIL_OUTPUT : Nat := 0x4000

/-- C: result codes at or beyond this are invalid (the code tests `< LAST`). -/
def POWERTASK_RESULT_LAST : Nat := 0x6000

/-- powertask_attribute_t: constant attributes of a task.  The `name`
string is diagnostics-only and omitted; the C function pointer is
modelled as a numeric function key `func` (equal keys = same function). -/
structure Attribute where
  ID : Nat
  minimum_battery : Nat
  func : Nat
  input_length : Nat
  output_length : Nat
deriving DecidableEq, Repr

/-- powertask_telemetry_t: header {ID, length} plus payload bytes. -/
structure Telemetry where
  hdrID : Nat
  hdrLength : Nat
  data : List Nat
deriving DecidableEq, Repr

/-- powertask_task_t: runtime task struct.  `prev`/`next` are the
runnable-list links (`none` = NULL).  The registry-tree links
(`lower`/`higher`) are represented by the tree itself. -/
structure TaskState where
  attr : Attribute
  input : Option Telemetry
  output : Option Telemetry
  prev : Option Nat
  next : Option Nat
deriving DecidableEq, Repr

/-- The registered-tasks binary search tree (IDs at the nodes).  In the C
code this is the `lower`/`higher` links threaded through the task structs. -/
inductive Tree where
  | leaf : Tree
  | node (id : Nat) (lower higher : Tree) : Tree
deriving DecidableEq, Repr

/-- The global state of powertask_builtin.c: `registered_tasks` tree root,
the per-task runtime structs, the runnable-list cursor `runnable_tasks`,
and `powertask_current_battery`. -/
structure State where
  registered_tasks : Tree
  tasks : List (Nat × TaskState)
  runnable_tasks : Option Nat
  battery : Nat
deriving DecidableEq, Repr

/-- An aborted execution: `fatal` models powertask_fatal (process exit),
`ub` models dereferencing a NULL pointer (undefined behaviour). -/
inductive Err where
  | fatal (id : Nat) : Err
  | ub : Err
deriving DecidableEq, Repr

/-- Association-list lookup for the task structs (pointer dereference by ID). -/
def alookup : List (Nat × TaskState) → Nat → Option TaskState
  | [], _ => none
  | (k, v) :: rest, id => if k = id then some v else alookup rest id

/-- Association-list in-place update (a store through a task pointer). -/
def aupdate (f : TaskState → TaskState) : List (Nat × TaskState) → Nat → List (Nat × TaskState)
  | [], _ => []
  | (k, v) :: rest, id => if k = id then (k, f v) :: rest else (k, v) :: aupdate f rest id

/-- Store through a task pointer, at the state level. -/
def setTask (s : State) (id : Nat) (f : TaskState → TaskState) : State :=
  { s with tasks := aupdate f s.tasks id }

/-- Read a task's `next` field (none when the task does not exist). -/
def nextOf (s : State) (id : Nat) : Option Nat :=
  (alookup s.tasks id).bind (fun t => t.next)

/-- Read a task's `prev` field (none when the task does not exist). -/
def prevOf (s : State) (id : Nat) : Option Nat :=
  (alookup s.tasks id).bind (fun t => t.prev)

/-- C: powertask_allocate_telemetry.  `calloc` zeroes the whole block:
the header fields and the `len` payload bytes all start at 0. -/
def powertask_allocate_telemetry (len : Nat) : Telemetry :=
  { hdrID := 0, hdrLength := 0, data := List.replicate len 0 }

/-- The ID-comparison walk shared by tree insertion and lookup.  Note the
source descends into `lower` when the parent ID is SMALLER (the code's
`lower`/`higher` naming is inverted relative to the header comment, but
insertion and lookup use the same comparisons, so lookup is correct). -/
def lookupWalk : Tree → Nat → Option Nat
  | Tree.leaf, _ => none
  | Tree.node pid lo hi, id =>
    if pid < id then lookupWalk lo id
    else if id < pid then lookupWalk hi id
    else some pid

/-- C: powertask_task_lookup.  Dereferences the root `registered_tasks`
before any test, so an empty registry is undefined behaviour, not a clean
"not found". -/
def powertask_task_lookup (s : State) (id : Nat) : Except Err (Option Nat) :=
  match s.registered_tasks with
  | Tree.leaf => Except.error Err.ub
  | Tree.node pid lo hi => Except.ok (lookupWalk (Tree.node pid lo hi) id)

/-- C: powertask_link_into_tree.  Walks from `parent` comparing IDs and
inserts at the first open branch; an ID collision is fatal.  The C caller
never passes a NULL parent, so the leaf case is marked `ub`. -/
def powertask_link_into_tree : Tree → Nat → Except Err Tree
  | Tree.leaf, _ => Except.error Err.ub
  | Tree.node pid lo hi, id =>
    if pid < id then
      match lo with
      | Tree.leaf => Except.ok (Tree.node pid (Tree.node id Tree.leaf Tree.leaf) hi)
      | Tree.node a b c =>
        (powertask_link_into_tree (Tree.node a b c) id).map fun lo2 => Tree.node pid lo2 hi
    else if id < pid then
      match hi with
      | Tree.leaf => Except.ok (Tree.node pid lo (Tree.node id Tree.leaf Tree.leaf))
      | Tree.node a b c =>
        (powertask_link_into_tree (Tree.node a b c) id).map fun hi2 => Tree.node pid lo hi2
    else Except.error (Err.fatal id)

/-- C: powertask_make_runnable.  Looks the task up ("not found" is fatal);
if `task->prev != 0` it is already runnable and the call is a no-op;
otherwise the telemetry slots are allocated if absent and the task is
spliced into the circular list right after the cursor, becoming the new
cursor.  Note that, exactly as in the source, the new task's successor's
`prev` field is NOT updated. -/
def powertask_make_runnable (s : State) (id : Nat) : Except Err State :=
  match powertask_task_lookup s id with
  | Except.error e => Except.error e
  | Except.ok none => Except.error (Err.fatal id)
  | Except.ok (some _) =>
    match alookup s.tasks id with
    | none => Except.error Err.ub
    | some task =>
      if task.prev ≠ none then Except.ok s
      else
        let task1 := { task with
          input := if task.input = none then
              some (powertask_allocate_telemetry task.attr.input_length) else task.input,
          output := if task.output = none then
              some (powertask_allocate_telemetry task.attr.output_length) else task.output }
        match s.runnable_tasks with
        | none =>
          let s1 := setTask s id fun _ => { task1 with prev := some id, next := some id }
          Except.ok { s1 with runnable_tasks := some id }
        | some cur =>
          match alookup s.tasks cur with
          | none => Except.error Err.ub
          | some curT =>
            -- task->next = runnable_tasks->next; task->prev = runnable_tasks
            let s1 := setTask s id fun _ => { task1 with next := curT.next, prev := some cur }
            -- runnable_tasks->next = task
            let s2 := setTask s1 cur fun c => { c with next := some id }
            -- runnable_tasks = task
            Except.ok { s2 with runnable_tasks := some id }

/-- Add the freshly calloc'ed task struct for `attr` to the task-struct
store (powertask_task_register's field initialisation: links NULL,
telemetry NULL). -/
def addTaskEntry (s : State) (attr : Attribute) : State :=
  { s with tasks :=
      (attr.ID, { attr := attr, input := none, output := none, prev := none, next := none })
        :: s.tasks }

/-- The builtin idle task's function key (the address of powertask_idle_task). -/
def idleFuncKey : Nat := 0

/-- C: attributes_idle_task (ID 0xFFFF, zero minimum battery, no telemetry). -/
def attributes_idle_task : Attribute :=
  { ID := 0xFFFF, minimum_battery := 0, func := idleFuncKey,
    input_length := 0, output_length := 0 }

/-- C: powertask_task_register (and powertask_register, which callocs the
struct and delegates here).  On the first registration ever the task
becomes the tree root and powertask_setup runs: the builtin idle task is
registered and made runnable.  Later registrations walk the tree; a
collision is fatal (the process aborts before any further state matters). -/
def powertask_task_register (s : State) (attr : Attribute) : Except Err State :=
  match s.registered_tasks with
  | Tree.node pid lo hi =>
    match powertask_link_into_tree (Tree.node pid lo hi) attr.ID with
    | Except.error e => Except.error e
    | Except.ok tr => Except.ok (addTaskEntry { s with registered_tasks := tr } attr)
  | Tree.leaf =>
    -- first registration ever: become the search-tree root …
    let s1 := addTaskEntry { s with registered_tasks := Tree.node attr.ID Tree.leaf Tree.leaf } attr
    -- … then powertask_setup: register the idle task and make it runnable
    match powertask_link_into_tree s1.registered_tasks attributes_idle_task.ID with
    | Except.error e => Except.error e
    | Except.ok tr =>
      let s2 := addTaskEntry { s1 with registered_tasks := tr } attributes_idle_task
      powertask_make_runnable s2 attributes_idle_task.ID

/-- C: powertask_register. -/
def powertask_register (s : State) (attr : Attribute) : Except Err State :=
  powertask_task_register s attr

/-- C: remove_task.  Relinks the neighbours around `task` and, if `task`
was the cursor, advances the cursor to `task->next`.  Exactly as in the
source, the removed task's own `prev`/`next` fields are NOT cleared. -/
def remove_task (s : State) (id : Nat) : Except Err State :=
  match alookup s.tasks id with
  | none => Except.error Err.ub
  | some t =>
    match t.prev, t.next with
    | some p, some n =>
      -- task->prev->next = task->next
      let s1 := setTask s p fun tp => { tp with next := some n }
      -- task->next->prev = task->prev  (re-read task's fields after the store)
      match alookup s1.tasks id with
      | none => Except.error Err.ub
      | some t1 =>
        match t1.next, t1.prev with
        | some n1, some p1 =>
          let s2 := setTask s1 n1 fun tn => { tn with prev := some p1 }
          -- if (task == runnable_tasks) runnable_tasks = task->next
          match alookup s2.tasks id with
          | none => Except.error Err.ub
          | some t2 =>
            if s2.runnable_tasks = some id then
              Except.ok { s2 with runnable_tasks := t2.next }
            else Except.ok s2
        | _, _ => Except.error Err.ub
    | _, _ => Except.error Err.ub

/-- A side effect a task function performs during its invocation:
a store through its own output-buffer pointer, a nested
powertask_make_runnable call, or a store through the input-buffer
pointer that such a call returned (the buffer of task `id`). -/
inductive Act where
  | writeOut (i v : Nat) : Act
  | mkRun (id : Nat) : Act
  | writeInOf (id i v : Nat) : Act
deriving DecidableEq, Repr

/-- Store one byte into a telemetry payload. -/
def writeData (tel : Telemetry) (i v : Nat) : Telemetry :=
  { tel with data := tel.data.set i v }

/-- Interpret one side effect of the task function of task `self`. -/
def applyAct (self : Nat) (s : State) : Act → Except Err State
  | Act.writeOut i v =>
    match alookup s.tasks self with
    | none => Except.error Err.ub
    | some t =>
      match t.output with
      | none => Except.error Err.ub
      | some tel =>
        Except.ok (setTask s self fun t0 => { t0 with output := some (writeData tel i v) })
  | Act.mkRun id => powertask_make_runnable s id
  | Act.writeInOf id i v =>
    match alookup s.tasks id with
    | none => Except.error Err.ub
    | some t =>
      match t.input with
      | none => Except.error Err.ub
      | some tel =>
        Except.ok (setTask s id fun t0 => { t0 with input := some (writeData tel i v) })

/-- Interpret the side-effect list of a task function, left to right. -/
def applyActs (self : Nat) : State → List Act → Except Err State
  | s, [] => Except.ok s
  | s, a :: rest =>
    match applyAct self s a with
    | Except.error e => Except.error e
    | Except.ok s1 => applyActs self s1 rest

/-- The behaviour of the application-supplied task functions: given the
function key and the current process state, the result code (a uint16)
and the side effects performed during the call. -/
def FuncSem : Type := Nat → State → Nat × List Act

/-- C: powertask_idle_task — returns RETRY, performs no side effects. -/
def powertask_idle_task : Nat × List Act := (POWERTASK_RESULT_RETRY, [])

/-- Dispatch a function key: the builtin idle function is part of the
source; every other key is application behaviour `φ`. -/
def callFunction (φ : FuncSem) (k : Nat) (s : State) : Nat × List Act :=
  if k = idleFuncKey then powertask_idle_task else φ k s

/-- Observation of one dispatch step: which task's function ran (if any)
and the output buffer handed to the external sink (if any). -/
structure Event where
  ran : Option Nat
  forwarded : Option Telemetry
deriving DecidableEq, Repr

/-- Modelled from the spec: handing a finished task's output buffer to the
external output sink.  The sink itself is not in the repository (the
source marks the spot "FIXME: store output telemetry somewhere"); this
definition only records WHICH buffer the success / failure-with-output
branches would forward. -/
def forwardOut (s : State) (id : Nat) : Option Telemetry :=
  (alookup s.tasks id).bind (fun t => t.output)

/-- The dispatcher's return: `runnable_tasks != runnable_tasks->next`,
computed on the final state (dereferences the cursor). -/
def finish (s : State) (e : Event) : Except Err (Bool × State × Event) :=
  match s.runnable_tasks with
  | none => Except.error Err.ub
  | some c =>
    match alookup s.tasks c with
    | none => Except.error Err.ub
    | some ct => Except.ok (decide (some c ≠ ct.next), s, e)

/-- The RETRY epilogue of powertask_run_next: leave the list untouched,
re-read the (possibly mid-step-moved) global cursor and advance it one
step (`runnable_tasks=runnable_tasks->next`), then return. -/
def advanceAfter (s : State) (e : Event) : Except Err (Bool × State × Event) :=
  match s.runnable_tasks with
  | none => Except.error Err.ub
  | some c =>
    match alookup s.tasks c with
    | none => Except.error Err.ub
    | some ct => finish { s with runnable_tasks := ct.next } e

/-- The removal epilogue of powertask_run_next, shared by the success
branch and both failure branches: `remove_task(task)`, then return. -/
def removeAfter (s : State) (tid : Nat) (e : Event) : Except Err (Bool × State × Event) :=
  match remove_task s tid with
  | Except.error e2 => Except.error e2
  | Except.ok s2 => finish s2 e

/-- C: powertask_run_next.  Dereferences the cursor unconditionally; gates
on battery; invokes the task function and interprets the result code;
note the RETRY branch re-reads the (possibly moved) global cursor before
advancing, exactly as `runnable_tasks=runnable_tasks->next` does. -/
def powertask_run_next (φ : FuncSem) (s : State) : Except Err (Bool × State × Event) :=
  match s.runnable_tasks with
  | none => Except.error Err.ub
  | some tid =>
    match alookup s.tasks tid with
    | none => Except.error Err.ub
    | some task =>
      if task.attr.minimum_battery ≤ s.battery then
        let rAct := callFunction φ task.attr.func s
        let result := rAct.1 % 65536
        match applyActs tid s rAct.2 with
        | Except.error e => Except.error e
        | Except.ok s1 =>
          if result = POWERTASK_RESULT_RETRY then
            advanceAfter s1 ⟨some tid, none⟩
          else if result = POWERTASK_RESULT_OK then
            removeAfter s1 tid ⟨some tid, forwardOut s1 tid⟩
          else if POWERTASK_RESULT_FAIL_QUIET ≤ result ∧ result < POWERTASK_RESULT_FAIL_OUTPUT then
            removeAfter s1 tid ⟨some tid, none⟩
          else if POWERTASK_RESULT_FAIL_OUTPUT ≤ result ∧ result < POWERTASK_RESULT_LAST then
            removeAfter s1 tid ⟨some tid, forwardOut s1 tid⟩
          else
            Except.error (Err.fatal result)
      else
        finish { s with runnable_tasks := task.next } ⟨none, none⟩

/-- The pristine process state: both globals NULL,
powertask_current_battery = 30000 (the source's initial value). -/
def initState : State :=
  { registered_tasks := Tree.leaf, tasks := [], runnable_tasks := none, battery := 30000 }

/-! ### Observers: membership and the circular list -/

/-- The membership test the source itself uses (`task->prev != 0`): the
links are the authoritative "is this task in the runnable set" flag. -/
def memberB (s : State) (id : Nat) : Bool :=
  decide (prevOf s id ≠ none)

/-- How many task structs currently carry a set membership flag. -/
def runnableCount (s : State) : Nat :=
  s.tasks.countP (fun p => decide (p.2.prev ≠ none))

/-- Walk the `next` chain from `c`, stopping when the walk returns to
`start`, runs out of fuel, or falls off a NULL/dangling pointer. -/
def orbitAux (s : State) (start : Nat) : Nat → Nat → List Nat
  | 0, _ => []
  | fuel+1, c =>
    c :: (match nextOf s c with
      | none => []
      | some n => if n = start then [] else orbitAux s start fuel n)

/-- The tasks actually reachable from the cursor along `next`: the
members of the circular list the dispatcher will visit. -/
def membersList (s : State) : List Nat :=
  match s.runnable_tasks with
  | none => []
  | some c => orbitAux s c s.tasks.length c

/-- One adjacency of a consistent doubly-linked circular list:
`a`'s successor is `b` and `b`'s predecessor is `a`. -/
def linkedB (s : State) (a b : Nat) : Bool :=
  decide (nextOf s a = some b) && decide (prevOf s b = some a)

/-- All interior adjacencies of `l` hold in `s`. -/
def chainB (s : State) : List Nat → Bool
  | [] => true
  | [_] => true
  | a :: b :: rest => linkedB s a b && chainB s (b :: rest)

/-- `l` is the runnable circular list of `s`, read off from the cursor:
nonempty, duplicate-free, cursor at its head, all adjacencies mutually
consistent including the closing link from last back to head. -/
def listRep (s : State) (l : List Nat) : Prop :=
  l ≠ [] ∧ l.Nodup ∧ s.runnable_tasks = l.head? ∧ chainB s l = true ∧
    linkedB s (l.getLastD 0) (l.headD 0) = true

/-! ### The example tasks of src/example_ABC.c -/

def funcKeyA : Nat := 1
def funcKeyB : Nat := 2

/-- C: attributes_A (ID 0xA123, 1000 J, no input, 1 output byte). -/
def attributes_A : Attribute :=
  { ID := 0xA123, minimum_battery := 1000, func := funcKeyA,
    input_length := 0, output_length := 1 }

/-- C: attributes_B (ID 0xB007, 10000 J, 1 input byte, 1 output byte). -/
def attributes_B : Attribute :=
  { ID := 0xB007, minimum_battery := 10000, func := funcKeyB,
    input_length := 1, output_length := 1 }

/-- C: function_A, but with the returned result code a parameter `r`
(the source returns POWERTASK_RESULT_OK): write 'A' (65) to its own
output, make task 0xB007 runnable, write 'B' (66) through the returned
input-buffer pointer. -/
def function_A_res (r : Nat) (_s : State) : Nat × List Act :=
  (r, [Act.writeOut 0 65, Act.mkRun 0xB007, Act.writeInOf 0xB007 0 66])

/-- C: function_A exactly as in the source (returns POWERTASK_RESULT_OK). -/
def function_A (s : State) : Nat × List Act :=
  function_A_res POWERTASK_RESULT_OK s

/-- C: function_B: if its own output byte is still 0, copy the input
byte there and ask to be retried; otherwise increment the output byte
(a C unsigned char, hence mod 256) and report success. -/
def function_B (s : State) : Nat × List Act :=
  match alookup s.tasks 0xB007 with
  | none => (0, [])
  | some t =>
    let inb := ((t.input).map (fun tel => tel.data.getD 0 0)).getD 0
    let outb := ((t.output).map (fun tel => tel.data.getD 0 0)).getD 0
    if outb = 0 then (POWERTASK_RESULT_RETRY, [Act.writeOut 0 inb])
    else (POWERTASK_RESULT_OK, [Act.writeOut 0 ((outb + 1) % 256)])

/-- The function table of example_ABC.c, with task A's result code a
parameter. -/
def phiABC_res (r : Nat) : FuncSem := fun k s =>
  if k = funcKeyA then function_A_res r s
  else if k = funcKeyB then function_B s
  else (0, [])

/-- The function table of example_ABC.c. -/
def phiABC : FuncSem := phiABC_res POWERTASK_RESULT_OK

/-- A function table where every application task returns the fixed
code `r` and performs no side effects. -/
def phiConst (r : Nat) : FuncSem := fun _ _ => (r, [])

/-- main() of example_ABC.c up to the scheduling loop: register A,
register B, make A runnable. -/
def exampleABCReady : Except Err State :=
  (powertask_register initState attributes_A).bind fun s =>
  (powertask_register s attributes_B).bind fun s1 =>
  powertask_make_runnable s1 0xA123

/-- Register A and make it runnable: the smallest state in which the
splice of powertask_make_runnable has inserted into a non-empty list. -/
def spliceScenario : Except Err State :=
  (powertask_register initState attributes_A).bind fun s =>
  powertask_make_runnable s 0xA123

/-- Register A, make it runnable, then run one dispatch step in which A's
function returns POWERTASK_RESULT_OK, so remove_task unlinks A. -/
def removalScenario : Except Err State :=
  spliceScenario.bind fun s =>
  (powertask_run_next (phiConst POWERTASK_RESULT_OK) s).map fun r => r.2.1

/-- Register both example tasks, nothing made runnable by the caller yet. -/
def twoRegistered : Except Err State :=
  (powertask_register initState attributes_A).bind fun s =>
  powertask_register s attributes_B

/-- Register both example tasks, then make B (which has nonzero declared
buffer lengths) runnable, forcing both telemetry allocations. -/
def allocScenario : Except Err State :=
  twoRegistered.bind fun s => powertask_make_runnable s 0xB007

/-- Extract the state from a completed scenario (scenarios used below all
evaluate to `Except.ok`). -/
def stateOf (e : Except Err State) : State :=
  match e with
  | Except.ok s => s
  | Except.error _ => initState

/-- The first payload byte of a task's input buffer. -/
def inputByte (s : State) (id : Nat) : Option Nat :=
  ((alookup s.tasks id).bind (fun t => t.input)).map (fun tel => tel.data.getD 0 0)

instance (s : State) (l : List Nat) : Decidable (listRep s l) := by
  unfold listRep
  infer_instance

/-! ### Traces of operations and of dispatch steps -/

/-- The public operations an execution interleaves. -/
inductive Op where
  | reg (a : Attribute) : Op
  | mkRun (id : Nat) : Op
  | runNext : Op
deriving DecidableEq, Repr

def applyOp (φ : FuncSem) (s : State) : Op → Except Err State
  | Op.reg a => powertask_register s a
  | Op.mkRun id => powertask_make_runnable s id
  | Op.runNext => (powertask_run_next φ s).map (fun r => r.2.1)

def applyOps (φ : FuncSem) : State → List Op → Except Err State
  | s, [] => Except.ok s
  | s, op :: rest =>
    match applyOp φ s op with
    | Except.error e => Except.error e
    | Except.ok s1 => applyOps φ s1 rest

/-- `n` consecutive dispatch steps. -/
def stepsTo (φ : FuncSem) : Nat → State → Except Err State
  | 0, s => Except.ok s
  | n+1, s =>
    match powertask_run_next φ s with
    | Except.error e => Except.error e
    | Except.ok r => stepsTo φ n r.2.1

/-- The task at the cursor when step `k` begins (none if the run died). -/
def selectedAt (φ : FuncSem) (s0 : State) (k : Nat) : Option Nat :=
  match stepsTo φ k s0 with
  | Except.ok sk => sk.runnable_tasks
  | Except.error _ => none

/-- The task whose function step `k` invoked (none if no invocation). -/
def ranAt (φ : FuncSem) (s0 : State) (k : Nat) : Option Nat :=
  match stepsTo φ k s0 with
  | Except.ok sk =>
    match powertask_run_next φ sk with
    | Except.ok r => r.2.2.ran
    | Except.error _ => none
  | Except.error _ => none

/-- Task functions that only write their own output buffer: no
make_runnable splice and no foreign-buffer store happens mid-step. -/
def NoSplice (φ : FuncSem) : Prop :=
  ∀ k s a, a ∈ (φ k s).2 → ∃ i v, a = Act.writeOut i v

/-- Everything of a task struct except its telemetry buffers: identity,
attributes and the two membership links. -/
def structProj (l : List (Nat × TaskState)) : List (Nat × Attribute × Option Nat × Option Nat) :=
  l.map (fun p => (p.1, p.2.attr, p.2.prev, p.2.next))

/-- What every scheduler operation other than registration preserves:
the battery (the core never debits energy), the registry tree, every
existing task struct's identity and attributes — and a task whose two
membership links are both set keeps them both set (links of linked
tasks are only ever overwritten with non-NULL values). -/
def TaskShapePres (s s2 : State) : Prop :=
  s2.battery = s.battery ∧ s2.registered_tasks = s.registered_tasks ∧
  (∀ j t, alookup s.tasks j = some t → ∃ t2, alookup s2.tasks j = some t2 ∧ t2.attr = t.attr) ∧
  (∀ j t, alookup s.tasks j = some t → t.prev ≠ none → t.next ≠ none →
    ∃ t2, alookup s2.tasks j = some t2 ∧ t2.prev ≠ none ∧ t2.next ≠ none)

/-- The bootstrap invariant: the builtin idle task is registered (the
tree walk finds it), its struct is intact, and its membership links are
both set. -/
def IdleInv (s : State) : Prop :=
  lookupWalk s.registered_tasks 0xFFFF = some 0xFFFF ∧
  ∃ t, alookup s.tasks 0xFFFF = some t ∧ t.attr = attributes_idle_task ∧
    t.prev ≠ none ∧ t.next ≠ none

/-! ### Concrete material for the round-robin analysis -/

def funcKeyRetry : Nat := 3
def funcKeyDone : Nat := 4

/-- Task T: always asks to be retried. -/
def attrT : Attribute :=
  { ID := 0x2001, minimum_battery := 0, func := funcKeyRetry, input_length := 0, output_length := 0 }

/-- Task X: always asks to be retried. -/
def attrX : Attribute :=
  { ID := 0x3001, minimum_battery := 0, func := funcKeyRetry, input_length := 0, output_length := 0 }

/-- Task N: completes immediately. -/
def attrN : Attribute :=
  { ID := 0x4001, minimum_battery := 0, func := funcKeyDone, input_length := 0, output_length := 0 }

def phiC9 : FuncSem := fun k _ =>
  if k = funcKeyRetry then (POWERTASK_RESULT_RETRY, [])
  else if k = funcKeyDone then (POWERTASK_RESULT_OK, [])
  else (0, [])

/-- Register T, X, N, make T and X runnable, and advance the cursor onto
T with two dispatch steps. -/
def opsSetup : List Op :=
  [Op.reg attrT, Op.reg attrX, Op.reg attrN,
   Op.mkRun 0x2001, Op.mkRun 0x3001, Op.runNext, Op.runNext]

/-- The task the next dispatch step would run after executing `ops`. -/
def evAfter (ops : List Op) : Option Nat :=
  match applyOps phiC9 initState ops with
  | Except.ok s =>
    match powertask_run_next phiC9 s with
    | Except.ok r => r.2.2.ran
    | Except.error _ => none
  | Except.error _ => none

/-- The circular list after executing `ops` (for reading off membership). -/
def membersAfter (ops : List Op) : Option (List Nat) :=
  match applyOps phiC9 initState ops with
  | Except.ok s => some (membersList s)
  | Except.error _ => none

/-- Every application task asks to be retried, with no side effects. -/
def phiRetry : FuncSem := fun _ _ => (POWERTASK_RESULT_RETRY, [])

def attrW1 : Attribute :=
  { ID := 1, minimum_battery := 0, func := 9, input_length := 0, output_length := 0 }

def attrW2 : Attribute :=
  { ID := 2, minimum_battery := 0, func := 9, input_length := 0, output_length := 0 }

/-- A two-member mutually consistent circular runnable list (tasks 1 and
2), cursor on task 1: concrete input for the general theorems. -/
def pairState : State :=
  { registered_tasks := Tree.node 1 (Tree.node 2 Tree.leaf Tree.leaf) Tree.leaf,
    tasks := [(1, { attr := attrW1, input := some { hdrID := 0, hdrLength := 0, data := [] },
                    output := some { hdrID := 0, hdrLength := 0, data := [] },
                    prev := some 2, next := some 2 }),
              (2, { attr := attrW2, input := some { hdrID := 0, hdrLength := 0, data := [] },
                    output := some { hdrID := 0, hdrLength := 0, data := [] },
                    prev := some 1, next := some 1 })],
    runnable_tasks := some 1, battery := 30000 }

def attrW3 : Attribute :=
  { ID := 3, minimum_battery := 40000, func := 9, input_length := 0, output_length := 0 }

/-- A single-member runnable list whose task needs more battery (40000)
than is available (30000): concrete input for the admission-control
theorem. -/
def gatedState : State :=
  { registered_tasks := Tree.node 3 Tree.leaf Tree.leaf,
    tasks := [(3, { attr := attrW3, input := some { hdrID := 0, hdrLength := 0, data := [] },
                    output := some { hdrID := 0, hdrLength := 0, data := [] },
                    prev := some 3, next := some 3 })],
    runnable_tasks := some 3, battery := 30000 }

def attrW5 : Attribute :=
  { ID := 5, minimum_battery := 0, func := 9, input_length := 2, output_length := 3 }

/-- A registered, not-yet-runnable task whose input buffer was
pre-supplied by the caller (a static buffer, nonzero contents) while its
output buffer is absent: concrete input for the per-buffer allocation
theorem. -/
def preSuppliedState : State :=
  { registered_tasks := Tree.node 5 Tree.leaf Tree.leaf,
    tasks := [(5, { attr := attrW5,
                    input := some { hdrID := 5, hdrLength := 2, data := [7, 7] },
                    output := none, prev := none, next := none })],
    runnable_tasks := none, battery := 30000 }

/-- A freshly calloc'ed task struct for attribute `a`. -/
def freshTask (a : Attribute) : TaskState :=
  { attr := a, input := none, output := none, prev := none, next := none }

/-- The idle task's struct right after bootstrap: empty zeroed buffers,
self-linked into the then-singleton runnable list. -/
def idleBootTask : TaskState :=
  { attr := attributes_idle_task,
    input := some { hdrID := 0, hdrLength := 0, data := [] },
    output := some { hdrID := 0, hdrLength := 0, data := [] },
    prev := some 0xFFFF, next := some 0xFFFF }

/-- The state during the first-ever registration of `a`, after both tree
insertions but before the idle task is made runnable. -/
def bootMidState (a : Attribute) : State :=
  { registered_tasks := Tree.node a.ID (Tree.node 0xFFFF Tree.leaf Tree.leaf) Tree.leaf,
    tasks := [(0xFFFF, freshTask attributes_idle_task), (a.ID, freshTask a)],
    runnable_tasks := none, battery := 30000 }

/-- The state after the first-ever registration of `a` completes. -/
def bootDoneState (a : Attribute) : State :=
  { registered_tasks := Tree.node a.ID (Tree.node 0xFFFF Tree.leaf Tree.leaf) Tree.leaf,
    tasks := [(0xFFFF, idleBootTask), (a.ID, freshTask a)],
    runnable_tasks := some 0xFFFF, battery := 30000 }

/-- The state main() of example_ABC.c reaches before its scheduling
loop (A and B registered, A runnable). -/
def readyState : State := stateOf exampleABCReady

/-- The mid-step state of the first dispatch of A: A's function has
performed its three side effects (write 'A', make B runnable, write 'B'
into B's input) but has not yet returned. -/
def midABCState : State :=
  stateOf (applyActs 0xA123 readyState
    [Act.writeOut 0 65, Act.mkRun 0xB007, Act.writeInOf 0xB007 0 66])

/-- The link path from `a` through the nodes of `l` with a final closing
hop back to `first`: the circular list's adjacency chain rooted at the
cursor, in a recursion-friendly form (equivalent to `chainB` plus the
closing link, see `ringB_eq_chain`). -/
def ringB (s : State) (first : Nat) : Nat → List Nat → Bool
  | a, [] => linkedB s a first
  | a, b :: rest => linkedB s a b && ringB s first b rest

/-- Everything link-relevant of one task struct: attributes and the two
membership pointers (the telemetry buffers are irrelevant to the list). -/
def tlinks (t : TaskState) : Attribute × Option Nat × Option Nat :=
  (t.attr, t.prev, t.next)

/-! ### Toolbox: association-list stores -/

theorem alookup_aupdate (f : TaskState → TaskState) (l : List (Nat × TaskState)) (k id : Nat) :
    alookup (aupdate f l k) id = if k = id then (alookup l id).map f else alookup l id := by
  induction l with
  | nil => simp [alookup, aupdate]
  | cons p rest ih =>
    obtain ⟨a, v⟩ := p
    by_cases hak : a = k
    · subst hak
      by_cases haid : a = id
      · subst haid
        simp [alookup, aupdate]
      · simp [alookup, aupdate, haid]
    · by_cases haid : a = id
      · subst haid
        have hk : k ≠ a := fun h => hak h.symm
        simp [alookup, aupdate, hak, hk]
      · simp [alookup, aupdate, hak, haid, ih]

theorem alookup_setTask (s : State) (k : Nat) (f : TaskState → TaskState) (id : Nat) :
    alookup (setTask s k f).tasks id = if k = id then (alookup s.tasks id).map f else alookup s.tasks id := by
  simp [setTask, alookup_aupdate]

theorem alookup_mem (l : List (Nat × TaskState)) (id : Nat) (t : TaskState)
    (h : alookup l id = some t) : (id, t) ∈ l := by
  induction l with
  | nil => simp [alookup] at h
  | cons p rest ih =>
    obtain ⟨a, v⟩ := p
    by_cases ha : a = id
    · subst ha
      simp [alookup] at h
      simp [h]
    · simp [alookup, ha] at h
      simp [ih h]

/-! ### Toolbox: inversion and characterization of the dispatcher -/

theorem finish_ok (s : State) (e : Event) (b : Bool) (s2 : State) (ev : Event)
    (h : finish s e = Except.ok (b, s2, ev)) :
    s2 = s ∧ ev = e ∧ ∃ c ct, s.runnable_tasks = some c ∧ alookup s.tasks c = some ct ∧
      b = decide (some c ≠ ct.next) := by
  unfold finish at h
  rcases hcur : s.runnable_tasks with _ | c
  · simp only [hcur] at h
    exact Except.noConfusion h
  · rcases hct : alookup s.tasks c with _ | ct
    · simp only [hcur, hct] at h
      exact Except.noConfusion h
    · simp only [hcur, hct, Except.ok.injEq, Prod.mk.injEq] at h
      obtain ⟨hb, hs, he⟩ := h
      exact ⟨hs.symm, he.symm, c, ct, rfl, hct, hb.symm⟩

theorem remove_task_eq (s : State) (id : Nat) (t : TaskState) (p n : Nat)
    (hl : alookup s.tasks id = some t) (hp : t.prev = some p) (hn : t.next = some n) :
    remove_task s id = Except.ok (
      let s2 := setTask (setTask s p (fun tp => { tp with next := some n })) n
        (fun tn => { tn with prev := some p })
      if s.runnable_tasks = some id then { s2 with runnable_tasks := some n } else s2) := by
  unfold remove_task
  simp only [hl, hp, hn]
  by_cases hpid : p = id <;> by_cases hnid : n = id <;>
    simp [setTask, alookup_aupdate, hpid, hnid, hl, hp, hn] <;>
    rw [apply_ite Except.ok]

theorem remove_task_ok_inv (s : State) (id : Nat) (s2 : State)
    (h : remove_task s id = Except.ok s2) :
    ∃ t p n, alookup s.tasks id = some t ∧ t.prev = some p ∧ t.next = some n := by
  unfold remove_task at h
  split at h
  · exact Except.noConfusion h
  · rename_i t hl
    split at h
    · rename_i p n hp hn
      exact ⟨t, p, n, hl, hp, hn⟩
    · exact Except.noConfusion h

/-! ### Toolbox: shape preservation -/

theorem taskShapePres_refl (s : State) : TaskShapePres s s :=
  ⟨rfl, rfl, fun j t hj => ⟨t, hj, rfl⟩, fun j t hj hp hn => ⟨t, hj, hp, hn⟩⟩

theorem taskShapePres_trans {s s1 s2 : State}
    (h1 : TaskShapePres s s1) (h2 : TaskShapePres s1 s2) : TaskShapePres s s2 := by
  obtain ⟨hb1, hr1, ha1, hl1⟩ := h1
  obtain ⟨hb2, hr2, ha2, hl2⟩ := h2
  refine ⟨hb2.trans hb1, hr2.trans hr1, fun j t hj => ?_, fun j t hj hp hn => ?_⟩
  · obtain ⟨t1, hj1, hat1⟩ := ha1 j t hj
    obtain ⟨t2, hj2, hat2⟩ := ha2 j t1 hj1
    exact ⟨t2, hj2, hat2.trans hat1⟩
  · obtain ⟨t1, hj1, hp1, hn1⟩ := hl1 j t hj hp hn
    obtain ⟨t2, hj2, hp2, hn2⟩ := hl2 j t1 hj1 hp1 hn1
    exact ⟨t2, hj2, hp2, hn2⟩

theorem taskShapePres_of_tasks_eq {s s2 : State} (ht : s2.tasks = s.tasks)
    (hb : s2.battery = s.battery) (hr : s2.registered_tasks = s.registered_tasks) :
    TaskShapePres s s2 :=
  ⟨hb, hr, fun j t hj => ⟨t, by rw [ht]; exact hj, rfl⟩,
   fun j t hj hp hn => ⟨t, by rw [ht]; exact hj, hp, hn⟩⟩

theorem taskShapePres_cursor (s s2 : State) (h : TaskShapePres s s2) (v : Option Nat) :
    TaskShapePres s { s2 with runnable_tasks := v } :=
  ⟨h.1, h.2.1, h.2.2.1, h.2.2.2⟩

theorem taskShapePres_setTask (s : State) (k : Nat) (f : TaskState → TaskState)
    (hattr : ∀ t, alookup s.tasks k = some t → (f t).attr = t.attr)
    (hlinks : ∀ t, alookup s.tasks k = some t → t.prev ≠ none → t.next ≠ none →
      (f t).prev ≠ none ∧ (f t).next ≠ none) :
    TaskShapePres s (setTask s k f) := by
  refine ⟨rfl, rfl, fun j t hj => ?_, fun j t hj hp hn => ?_⟩
  · rw [alookup_setTask]
    by_cases hkj : k = j
    · subst hkj
      exact ⟨f t, by simp [hj], hattr t hj⟩
    · exact ⟨t, by simp [hkj, hj], rfl⟩
  · rw [alookup_setTask]
    by_cases hkj : k = j
    · subst hkj
      obtain ⟨hfp, hfn⟩ := hlinks t hj hp hn
      exact ⟨f t, by simp [hj], hfp, hfn⟩
    · exact ⟨t, by simp [hkj, hj], hp, hn⟩

theorem remove_task_shape (s : State) (id : Nat) (s2 : State)
    (h : remove_task s id = Except.ok s2) : TaskShapePres s s2 := by
  obtain ⟨t, p, n, hl, hp, hn⟩ := remove_task_ok_inv s id s2 h
  rw [remove_task_eq s id t p n hl hp hn] at h
  simp only [Except.ok.injEq] at h
  subst h
  have h1 : TaskShapePres s (setTask s p (fun tp => { tp with next := some n })) :=
    taskShapePres_setTask s p _ (fun u _ => rfl)
      (fun u _ hup _ => ⟨hup, by simp⟩)
  have h2 : TaskShapePres s (setTask (setTask s p (fun tp => { tp with next := some n })) n
      (fun tn => { tn with prev := some p })) :=
    taskShapePres_trans h1 (taskShapePres_setTask _ n _ (fun u _ => rfl)
      (fun u _ _ hun => ⟨by simp, hun⟩))
  split
  · exact taskShapePres_cursor _ _ h2 _
  · exact h2

theorem make_runnable_shape (s : State) (id : Nat) (s2 : State)
    (h : powertask_make_runnable s id = Except.ok s2) : TaskShapePres s s2 := by
  unfold powertask_make_runnable at h
  rcases htl : powertask_task_lookup s id with e | o
  · simp only [htl] at h
    exact Except.noConfusion h
  · cases o with
    | none =>
      simp only [htl] at h
      exact Except.noConfusion h
    | some found =>
      simp only [htl] at h
      rcases hl : alookup s.tasks id with _ | task
      · simp only [hl] at h
        exact Except.noConfusion h
      · simp only [hl] at h
        by_cases hprev : task.prev ≠ none
        · rw [if_pos hprev] at h
          cases h
          exact taskShapePres_refl s
        · rw [if_neg hprev] at h
          have hpnone : task.prev = none := by
            by_contra hc
            exact hprev hc
          rcases hrt : s.runnable_tasks with _ | cur
          · simp only [hrt, Except.ok.injEq] at h
            subst h
            refine taskShapePres_cursor _ _ ?_ _
            refine taskShapePres_setTask s id _ ?_ ?_
            · intro u hu
              rw [hl] at hu
              injection hu with hu2
              subst hu2
              rfl
            · intro u hu hup _
              rw [hl] at hu
              injection hu with hu2
              subst hu2
              exact absurd hpnone hup
          · rcases halc : alookup s.tasks cur with _ | curT
            · simp only [hrt, halc] at h
              exact Except.noConfusion h
            · simp only [hrt, halc, Except.ok.injEq] at h
              subst h
              refine taskShapePres_cursor _ _ ?_ _
              refine taskShapePres_trans ?_
                (taskShapePres_setTask _ cur _ (fun u _ => rfl)
                  (fun u _ hup _ => ⟨hup, by simp⟩))
              refine taskShapePres_setTask s id _ ?_ ?_
              · intro u hu
                rw [hl] at hu
                injection hu with hu2
                subst hu2
                rfl
              · intro u hu hup _
                rw [hl] at hu
                injection hu with hu2
                subst hu2
                exact absurd hpnone hup

theorem applyAct_shape (self : Nat) (s : State) (a : Act) (s2 : State)
    (h : applyAct self s a = Except.ok s2) : TaskShapePres s s2 := by
  cases a with
  | writeOut i v =>
    unfold applyAct at h
    rcases hl : alookup s.tasks self with _ | t
    · simp only [hl] at h
      exact Except.noConfusion h
    · rcases ho : t.output with _ | tel
      · simp only [hl, ho] at h
        exact Except.noConfusion h
      · simp only [hl, ho, Except.ok.injEq] at h
        subst h
        exact taskShapePres_setTask s self _ (fun u _ => rfl) (fun u _ hup hun => ⟨hup, hun⟩)
  | mkRun id =>
    exact make_runnable_shape s id s2 h
  | writeInOf id i v =>
    unfold applyAct at h
    rcases hl : alookup s.tasks id with _ | t
    · simp only [hl] at h
      exact Except.noConfusion h
    · rcases ho : t.input with _ | tel
      · simp only [hl, ho] at h
        exact Except.noConfusion h
      · simp only [hl, ho, Except.ok.injEq] at h
        subst h
        exact taskShapePres_setTask s id _ (fun u _ => rfl) (fun u _ hup hun => ⟨hup, hun⟩)

theorem applyActs_shape (self : Nat) (acts : List Act) : ∀ (s s2 : State),
    applyActs self s acts = Except.ok s2 → TaskShapePres s s2 := by
  induction acts with
  | nil =>
    intro s s2 h
    unfold applyActs at h
    simp only [Except.ok.injEq] at h
    subst h
    exact taskShapePres_refl s
  | cons a rest ih =>
    intro s s2 h
    unfold applyActs at h
    rcases ha : applyAct self s a with e | s1
    · simp only [ha] at h
      exact Except.noConfusion h
    · simp only [ha] at h
      exact taskShapePres_trans (applyAct_shape self s a s1 ha) (ih s1 s2 h)

theorem advanceAfter_ok (s : State) (e : Event) (b : Bool) (s2 : State) (ev : Event)
    (h : advanceAfter s e = Except.ok (b, s2, ev)) :
    ev = e ∧ s2.tasks = s.tasks ∧ s2.battery = s.battery ∧
      s2.registered_tasks = s.registered_tasks ∧
      (∃ c ct, s.runnable_tasks = some c ∧ alookup s.tasks c = some ct ∧
        s2.runnable_tasks = ct.next) ∧
      (∃ c2 ct2, s2.runnable_tasks = some c2 ∧ alookup s2.tasks c2 = some ct2 ∧
        b = decide (some c2 ≠ ct2.next)) := by
  unfold advanceAfter at h
  rcases hcur : s.runnable_tasks with _ | c
  · simp only [hcur] at h
    exact Except.noConfusion h
  · rcases hct : alookup s.tasks c with _ | ct
    · simp only [hcur, hct] at h
      exact Except.noConfusion h
    · simp only [hcur, hct] at h
      obtain ⟨hs, he, hfin⟩ := finish_ok _ _ _ _ _ h
      subst hs
      exact ⟨he, rfl, rfl, rfl, ⟨c, ct, rfl, hct, rfl⟩, hfin⟩

theorem removeAfter_ok (s : State) (tid : Nat) (e : Event) (b : Bool) (s2 : State) (ev : Event)
    (h : removeAfter s tid e = Except.ok (b, s2, ev)) :
    ev = e ∧ remove_task s tid = Except.ok s2 ∧
      (∃ c2 ct2, s2.runnable_tasks = some c2 ∧ alookup s2.tasks c2 = some ct2 ∧
        b = decide (some c2 ≠ ct2.next)) := by
  unfold removeAfter at h
  rcases hrm : remove_task s tid with e2 | s3
  · simp only [hrm] at h
    exact Except.noConfusion h
  · simp only [hrm] at h
    obtain ⟨hs, he, hfin⟩ := finish_ok _ _ _ _ _ h
    subst hs
    exact ⟨he, rfl, hfin⟩

/-- Every successful dispatch step returns `runnable_tasks !=
runnable_tasks->next` evaluated on the final state, and its "ran" event
names the admitted cursor task. -/
theorem run_next_ok_inv (φ : FuncSem) (s : State) (b : Bool) (s2 : State) (ev : Event)
    (h : powertask_run_next φ s = Except.ok (b, s2, ev)) :
    (∃ c ct, s2.runnable_tasks = some c ∧ alookup s2.tasks c = some ct ∧
      b = decide (some c ≠ ct.next)) ∧
    (∀ T, ev.ran = some T → ∃ t, alookup s.tasks T = some t ∧
      s.runnable_tasks = some T ∧ t.attr.minimum_battery ≤ s.battery) ∧
    TaskShapePres s s2 := by
  unfold powertask_run_next at h
  rcases hcur : s.runnable_tasks with _ | tid
  · simp only [hcur] at h
    exact Except.noConfusion h
  · rcases hl : alookup s.tasks tid with _ | task
    · simp only [hcur, hl] at h
      exact Except.noConfusion h
    · simp only [hcur, hl] at h
      by_cases hb : task.attr.minimum_battery ≤ s.battery
      · rw [if_pos hb] at h
        rcases hacts : applyActs tid s (callFunction φ task.attr.func s).2 with e | s1
        · simp only [hacts] at h
          exact Except.noConfusion h
        · simp only [hacts] at h
          have hshape1 : TaskShapePres s s1 := applyActs_shape tid _ s s1 hacts
          split at h
          · obtain ⟨he, ht, hbat, hreg, _, hfin⟩ := advanceAfter_ok _ _ _ _ _ h
            subst he
            refine ⟨hfin, ?_, taskShapePres_trans hshape1
              (taskShapePres_of_tasks_eq ht hbat hreg)⟩
            intro T hT
            injection hT with hT2
            subst hT2
            exact ⟨task, hl, rfl, hb⟩
          · split at h
            · obtain ⟨he, hrm, hfin⟩ := removeAfter_ok _ _ _ _ _ _ h
              subst he
              refine ⟨hfin, ?_, taskShapePres_trans hshape1 (remove_task_shape s1 tid s2 hrm)⟩
              intro T hT
              injection hT with hT2
              subst hT2
              exact ⟨task, hl, rfl, hb⟩
            · split at h
              · obtain ⟨he, hrm, hfin⟩ := removeAfter_ok _ _ _ _ _ _ h
                subst he
                refine ⟨hfin, ?_, taskShapePres_trans hshape1 (remove_task_shape s1 tid s2 hrm)⟩
                intro T hT
                injection hT with hT2
                subst hT2
                exact ⟨task, hl, rfl, hb⟩
              · split at h
                · obtain ⟨he, hrm, hfin⟩ := removeAfter_ok _ _ _ _ _ _ h
                  subst he
                  refine ⟨hfin, ?_, taskShapePres_trans hshape1 (remove_task_shape s1 tid s2 hrm)⟩
                  intro T hT
                  injection hT with hT2
                  subst hT2
                  exact ⟨task, hl, rfl, hb⟩
                · exact Except.noConfusion h
      · rw [if_neg hb] at h
        obtain ⟨hs2, hev, hfin⟩ := finish_ok _ _ _ _ _ h
        subst hs2
        subst hev
        refine ⟨hfin, ?_, taskShapePres_of_tasks_eq rfl rfl rfl⟩
        intro T hT
        exact Option.noConfusion hT

/-- Admission control, code path: not enough battery means no function
call — only `runnable_tasks = runnable_tasks->next` and the return
computation happen, for every possible function table. -/
theorem run_next_low_battery (φ : FuncSem) (s : State) (tid : Nat) (task : TaskState)
    (hc : s.runnable_tasks = some tid) (hl : alookup s.tasks tid = some task)
    (hb : ¬ task.attr.minimum_battery ≤ s.battery) :
    powertask_run_next φ s = finish { s with runnable_tasks := task.next } ⟨none, none⟩ := by
  unfold powertask_run_next
  simp only [hc, hl]
  rw [if_neg hb]

/-- The admitted path of powertask_run_next, with the function's result
code and side effects abstracted out. -/
theorem run_next_invoked (φ : FuncSem) (s : State) (tid : Nat) (task : TaskState)
    (r : Nat) (acts : List Act)
    (hc : s.runnable_tasks = some tid) (hl : alookup s.tasks tid = some task)
    (hb : task.attr.minimum_battery ≤ s.battery)
    (hφ : callFunction φ task.attr.func s = (r, acts)) (hr : r < 65536) :
    powertask_run_next φ s =
      match applyActs tid s acts with
      | Except.error e => Except.error e
      | Except.ok s1 =>
        if r = POWERTASK_RESULT_RETRY then advanceAfter s1 ⟨some tid, none⟩
        else if r = POWERTASK_RESULT_OK then removeAfter s1 tid ⟨some tid, forwardOut s1 tid⟩
        else if POWERTASK_RESULT_FAIL_QUIET ≤ r ∧ r < POWERTASK_RESULT_FAIL_OUTPUT then
          removeAfter s1 tid ⟨some tid, none⟩
        else if POWERTASK_RESULT_FAIL_OUTPUT ≤ r ∧ r < POWERTASK_RESULT_LAST then
          removeAfter s1 tid ⟨some tid, forwardOut s1 tid⟩
        else Except.error (Err.fatal r) := by
  unfold powertask_run_next
  simp only [hc, hl, hφ, Nat.mod_eq_of_lt hr]
  rw [if_pos hb]

/-! ### C3: the result-code state machine -/

/-- C3: when the dispatcher admits the cursor task and its function
returns the (uint16) result code `r` after performing its side effects,
the code is interpreted exactly as the four-way machine: 0x1001 removes
the task and forwards its output; 0x10FF leaves the list untouched and
advances the cursor; [0x2000, 0x4000) removes without forwarding;
[0x4000, 0x6000) removes and forwards; every other code is a fatal,
unrecoverable abort. -/
theorem c3_result_code_state_machine (φ : FuncSem) (s s1 : State) (tid : Nat)
    (task : TaskState) (r : Nat) (acts : List Act)
    (hc : s.runnable_tasks = some tid) (hl : alookup s.tasks tid = some task)
    (hb : task.attr.minimum_battery ≤ s.battery)
    (hφ : callFunction φ task.attr.func s = (r, acts)) (hr : r < 65536)
    (hacts : applyActs tid s acts = Except.ok s1) :
    (r = 0x1001 →
      powertask_run_next φ s = removeAfter s1 tid ⟨some tid, forwardOut s1 tid⟩) ∧
    (r = 0x10FF →
      powertask_run_next φ s = advanceAfter s1 ⟨some tid, none⟩) ∧
    (0x2000 ≤ r → r < 0x4000 →
      powertask_run_next φ s = removeAfter s1 tid ⟨some tid, none⟩) ∧
    (0x4000 ≤ r → r < 0x6000 →
      powertask_run_next φ s = removeAfter s1 tid ⟨some tid, forwardOut s1 tid⟩) ∧
    (r ≠ 0x1001 → r ≠ 0x10FF → ¬(0x2000 ≤ r ∧ r < 0x4000) → ¬(0x4000 ≤ r ∧ r < 0x6000) →
      powertask_run_next φ s = Except.error (Err.fatal r)) := by
  have hmaster := run_next_invoked φ s tid task r acts hc hl hb hφ hr
  rw [hacts] at hmaster
  simp only [POWERTASK_RESULT_RETRY, POWERTASK_RESULT_OK, POWERTASK_RESULT_FAIL_QUIET,
    POWERTASK_RESULT_FAIL_OUTPUT, POWERTASK_RESULT_LAST] at hmaster
  refine ⟨?_, ?_, ?_, ?_, ?_⟩
  · intro h
    rw [hmaster, if_neg (by omega), if_pos h]
  · intro h
    rw [hmaster, if_pos h]
  · intro h1 h2
    rw [hmaster, if_neg (by omega), if_neg (by omega), if_pos ⟨h1, h2⟩]
  · intro h1 h2
    rw [hmaster, if_neg (by omega), if_neg (by omega), if_neg (by omega),
      if_pos ⟨h1, h2⟩]
  · intro h1 h2 h3 h4
    rw [hmaster, if_neg h2, if_neg h1, if_neg h3, if_neg h4]

/-- C3 at a concrete input: on the two-member list, a task function
returning the failure code 0x2500 (failure, no output) makes the
dispatcher remove the task without forwarding anything. -/
theorem c3_witness :
    powertask_run_next (phiConst 0x2500) pairState = removeAfter pairState 1 ⟨some 1, none⟩ :=
  (c3_result_code_state_machine (phiConst 0x2500) pairState pairState 1
      { attr := attrW1, input := some { hdrID := 0, hdrLength := 0, data := [] },
        output := some { hdrID := 0, hdrLength := 0, data := [] },
        prev := some 2, next := some 2 }
      0x2500 [] rfl rfl (by decide) rfl (by decide) rfl).2.2.1 (by decide) (by decide)

theorem stepsTo_shape (φ : FuncSem) : ∀ (k : Nat) (s s2 : State),
    stepsTo φ k s = Except.ok s2 → TaskShapePres s s2 := by
  intro k
  induction k with
  | zero =>
    intro s s2 h
    unfold stepsTo at h
    simp only [Except.ok.injEq] at h
    subst h
    exact taskShapePres_refl s
  | succ n ih =>
    intro s s2 h
    unfold stepsTo at h
    rcases hstep : powertask_run_next φ s with e | r
    · simp only [hstep] at h
      exact Except.noConfusion h
    · simp only [hstep] at h
      obtain ⟨b, s1, ev⟩ := r
      exact taskShapePres_trans (run_next_ok_inv φ s b s1 ev hstep).2.2 (ih s1 s2 h)

/-! ### C4: energy-gated admission control -/

/-- C4: if available energy is below the cursor task's minimum, the
dispatcher does not invoke any task function (the step is the same for
every function table and its event records no invocation), the task
stays in the Runnable Set with all task structs and the battery
untouched — only the cursor advances — and the step returns normally
(no error).  Consequently, a task whose minimum exceeds the (never
debited) available energy never has its function executed, at any later
step either. -/
theorem c4_admission_control (φ : FuncSem) (s : State) (tid : Nat) (task : TaskState)
    (hc : s.runnable_tasks = some tid) (hl : alookup s.tasks tid = some task)
    (hb : s.battery < task.attr.minimum_battery) :
    (∀ φ2 : FuncSem, powertask_run_next φ2 s
        = finish { s with runnable_tasks := task.next } ⟨none, none⟩) ∧
    (∀ n nt, task.next = some n → alookup s.tasks n = some nt →
      powertask_run_next φ s = Except.ok (decide (some n ≠ nt.next),
        { s with runnable_tasks := task.next }, ⟨none, none⟩)) ∧
    (∀ (k : Nat) (T : Nat) (tT : TaskState), alookup s.tasks T = some tT →
      s.battery < tT.attr.minimum_battery → ranAt φ s k ≠ some T) := by
  have hnb : ¬ task.attr.minimum_battery ≤ s.battery := by omega
  refine ⟨fun φ2 => run_next_low_battery φ2 s tid task hc hl hnb, ?_, ?_⟩
  · intro n nt hn hnt
    rw [run_next_low_battery φ s tid task hc hl hnb]
    unfold finish
    simp [hn, hnt]
  · intro k T tT hT hbT hcontra
    unfold ranAt at hcontra
    rcases hsteps : stepsTo φ k s with e | sk
    · simp only [hsteps] at hcontra
      exact Option.noConfusion hcontra
    · simp only [hsteps] at hcontra
      rcases hnext : powertask_run_next φ sk with e | rr
      · simp only [hnext] at hcontra
        exact Option.noConfusion hcontra
      · simp only [hnext] at hcontra
        obtain ⟨b2, s2, ev⟩ := rr
        obtain ⟨t2, hT2, _, hadm⟩ := (run_next_ok_inv φ sk b2 s2 ev hnext).2.1 T hcontra
        obtain ⟨hbat, _, hattr, _⟩ := stepsTo_shape φ k s sk hsteps
        obtain ⟨t3, hT3, hat3⟩ := hattr T tT hT
        rw [hT3] at hT2
        injection hT2 with he
        subst he
        rw [hat3, hbat] at hadm
        omega

/-- C4 at a concrete input: the gated task (needs 40000, battery 30000)
is skipped — identical step for any function table, a clean false
return, and its function never runs (checked at step 5). -/
theorem c4_witness :
    (powertask_run_next (phiConst 0) gatedState
        = finish { gatedState with runnable_tasks := some 3 } ⟨none, none⟩) ∧
    (powertask_run_next (phiConst 7) gatedState = Except.ok (false,
        { gatedState with runnable_tasks := some 3 }, ⟨none, none⟩)) ∧
    ranAt (phiConst 7) gatedState 5 ≠ some 3 := by
  have h0 := c4_admission_control (phiConst 0) gatedState 3
    { attr := attrW3, input := some { hdrID := 0, hdrLength := 0, data := [] },
      output := some { hdrID := 0, hdrLength := 0, data := [] },
      prev := some 3, next := some 3 } rfl rfl (by decide)
  have h7 := c4_admission_control (phiConst 7) gatedState 3
    { attr := attrW3, input := some { hdrID := 0, hdrLength := 0, data := [] },
      output := some { hdrID := 0, hdrLength := 0, data := [] },
      prev := some 3, next := some 3 } rfl rfl (by decide)
  exact ⟨h0.1 (phiConst 0), h7.2.1 3 _ rfl rfl,
    h7.2.2 5 3 _ rfl (by decide)⟩

/-! ### C6: the "more work remains" return value -/

/-- C6: whenever a dispatch step completes normally and the resulting
state's runnable structure is a well-formed circular list `l`, the
returned boolean is true exactly when `l` has more than one member
(more than just the idle task); and on a freshly bootstrapped scheduler
(one registration, no application task made runnable) run_next returns
false. -/
theorem c6_more_work_signal (φ : FuncSem) :
    (∀ (s : State) (b : Bool) (s2 : State) (ev : Event) (l : List Nat),
      powertask_run_next φ s = Except.ok (b, s2, ev) → listRep s2 l →
      (b = true ↔ 1 < l.length)) ∧
    ((powertask_register initState attributes_A).bind
        (fun s => (powertask_run_next φ s).map (fun r => r.1))) = Except.ok false := by
  constructor
  · intro s b s2 ev l hstep hrep
    obtain ⟨⟨c, ct, hcur2, hct2, hbval⟩, _, _⟩ := run_next_ok_inv φ s b s2 ev hstep
    obtain ⟨hne, hnd, hcur, hchain, hclose⟩ := hrep
    cases l with
    | nil => exact absurd rfl hne
    | cons c0 rest =>
      simp only [List.head?] at hcur
      rw [hcur2] at hcur
      injection hcur with hc0
      subst hc0
      have hnext : nextOf s2 c = ct.next := by
        unfold nextOf
        rw [hct2]
        rfl
      cases rest with
      | nil =>
        simp only [List.getLastD, List.headD, linkedB, Bool.and_eq_true,
          decide_eq_true_eq, List.getLast_singleton] at hclose
        have hcc : ct.next = some c := by
          rw [← hnext]
          exact hclose.1
        subst hbval
        simp [hcc]
      | cons x rest2 =>
        have hlink : linkedB s2 c x = true := by
          simp only [chainB, Bool.and_eq_true] at hchain
          exact hchain.1
        simp only [linkedB, Bool.and_eq_true, decide_eq_true_eq] at hlink
        have hcx : ct.next = some x := by
          rw [← hnext]
          exact hlink.1
        have hxc : c ≠ x := by
          intro hh
          subst hh
          simp at hnd
        subst hbval
        constructor
        · intro _
          simp only [List.length_cons]
          omega
        · intro _
          simp only [hcx, ne_eq, decide_eq_true_eq, Option.some.injEq]
          intro hh
          exact hxc hh
  · rfl

/-- C6 at a concrete input: retrying the head of the two-member list
returns true, matching 1 < 2. -/
theorem c6_witness : (true = true ↔ 1 < ([2, 1] : List Nat).length) :=
  (c6_more_work_signal phiRetry).1 pairState true
    { pairState with runnable_tasks := some 2 } ⟨some 1, none⟩ [2, 1] rfl (by decide)

/-! ### Toolbox: the registry tree and the idle-task invariant -/

theorem link_into_tree_found : ∀ (t : Tree) (id : Nat),
    lookupWalk t id = some id →
    powertask_link_into_tree t id = Except.error (Err.fatal id) := by
  intro t
  induction t with
  | leaf =>
    intro id h
    simp [lookupWalk] at h
  | node pid lo hi ihlo ihhi =>
    intro id h
    unfold lookupWalk at h
    unfold powertask_link_into_tree
    by_cases h1 : pid < id
    · rw [if_pos h1] at h
      rw [if_pos h1]
      cases lo with
      | leaf => simp [lookupWalk] at h
      | node a c d =>
        simp [ihlo id h, Except.map]
    · rw [if_neg h1] at h
      rw [if_neg h1]
      by_cases h2 : id < pid
      · rw [if_pos h2] at h
        rw [if_pos h2]
        cases hi with
        | leaf => simp [lookupWalk] at h
        | node a c d =>
          simp [ihhi id h, Except.map]
      · rw [if_neg h2]

theorem link_into_tree_preserves : ∀ (t : Tree) (b : Nat) (t2 : Tree),
    powertask_link_into_tree t b = Except.ok t2 → ∀ id, lookupWalk t id = some id →
    lookupWalk t2 id = some id := by
  intro t
  induction t with
  | leaf =>
    intro b t2 h
    exact fun id _ => absurd h (by simp [powertask_link_into_tree])
  | node pid lo hi ihlo ihhi =>
    intro b t2 h id hid
    unfold powertask_link_into_tree at h
    unfold lookupWalk at hid
    by_cases h1 : pid < b
    · rw [if_pos h1] at h
      cases lo with
      | leaf =>
        simp only [Except.ok.injEq] at h
        subst h
        unfold lookupWalk
        by_cases hpi : pid < id
        · rw [if_pos hpi] at hid
          simp [lookupWalk] at hid
        · rw [if_neg hpi] at hid
          rw [if_neg hpi]
          by_cases hip : id < pid
          · rw [if_pos hip] at hid
            rw [if_pos hip]
            exact hid
          · rw [if_neg hip] at hid
            rw [if_neg hip]
            exact hid
      | node a c d =>
        rcases hrec : powertask_link_into_tree (Tree.node a c d) b with e | lo2
        · simp only [hrec, Except.map] at h
          exact Except.noConfusion h
        · simp only [hrec, Except.map, Except.ok.injEq] at h
          subst h
          unfold lookupWalk
          by_cases hpi : pid < id
          · rw [if_pos hpi] at hid
            rw [if_pos hpi]
            exact ihlo b lo2 hrec id hid
          · rw [if_neg hpi] at hid
            rw [if_neg hpi]
            exact hid
    · rw [if_neg h1] at h
      by_cases h2 : b < pid
      · rw [if_pos h2] at h
        cases hi with
        | leaf =>
          simp only [Except.ok.injEq] at h
          subst h
          unfold lookupWalk
          by_cases hpi : pid < id
          · rw [if_pos hpi] at hid
            rw [if_pos hpi]
            exact hid
          · rw [if_neg hpi] at hid
            rw [if_neg hpi]
            by_cases hip : id < pid
            · rw [if_pos hip] at hid
              simp [lookupWalk] at hid
            · rw [if_neg hip] at hid
              rw [if_neg hip]
              exact hid
        | node a c d =>
          rcases hrec : powertask_link_into_tree (Tree.node a c d) b with e | hi2
          · simp only [hrec, Except.map] at h
            exact Except.noConfusion h
          · simp only [hrec, Except.map, Except.ok.injEq] at h
            subst h
            unfold lookupWalk
            by_cases hpi : pid < id
            · rw [if_pos hpi] at hid
              rw [if_pos hpi]
              exact hid
            · rw [if_neg hpi] at hid
              rw [if_neg hpi]
              by_cases hip : id < pid
              · rw [if_pos hip] at hid
                rw [if_pos hip]
                exact ihhi b hi2 hrec id hid
              · rw [if_neg hip] at hid
                rw [if_neg hip]
                exact hid
      · rw [if_neg h2] at h
        exact Except.noConfusion h

theorem idleInv_of_shape {s s2 : State} (hinv : IdleInv s) (hsh : TaskShapePres s s2) :
    IdleInv s2 := by
  obtain ⟨htree, t, hidle, hattr, hp, hn⟩ := hinv
  obtain ⟨hbat, hreg, hattr2, hlinks⟩ := hsh
  obtain ⟨t2, hidle2, hp2, hn2⟩ := hlinks 0xFFFF t hidle hp hn
  obtain ⟨t3, hidle3, hat3⟩ := hattr2 0xFFFF t hidle
  rw [hidle2] at hidle3
  injection hidle3 with he
  subst he
  exact ⟨by rw [hreg]; exact htree, t2, hidle2, hat3.trans hattr, hp2, hn2⟩

theorem register_preserves_idle (s : State) (a : Attribute) (s2 : State)
    (hinv : IdleInv s) (h : powertask_register s a = Except.ok s2) : IdleInv s2 := by
  obtain ⟨htree, t, hidle, hattr, hp, hn⟩ := hinv
  unfold powertask_register powertask_task_register at h
  rcases hreg : s.registered_tasks with _ | ⟨pid, lo, hi⟩
  · rw [hreg] at htree
    simp [lookupWalk] at htree
  · rw [hreg] at htree
    simp only [hreg] at h
    rcases hins : powertask_link_into_tree (Tree.node pid lo hi) a.ID with e | tr
    · rw [hins] at h
      exact Except.noConfusion h
    · rw [hins] at h
      simp only [Except.ok.injEq] at h
      subst h
      have hne : a.ID ≠ 0xFFFF := by
        intro hcontra
        rw [hcontra] at hins
        rw [link_into_tree_found _ _ htree] at hins
        exact Except.noConfusion hins
      refine ⟨?_, t, ?_, hattr, hp, hn⟩
      · simp only [addTaskEntry]
        exact link_into_tree_preserves _ _ _ hins 0xFFFF htree
      · simp only [addTaskEntry, alookup]
        rw [if_neg hne]
        exact hidle

theorem memberB_of_idleInv (s : State) (h : IdleInv s) : memberB s 0xFFFF = true := by
  obtain ⟨_, t, hidle, _, hp, _⟩ := h
  unfold memberB prevOf
  rw [hidle]
  simpa using hp

theorem runnableCount_pos (s : State) (id : Nat) (hm : memberB s id = true) :
    1 ≤ runnableCount s := by
  unfold memberB prevOf at hm
  rcases hl : alookup s.tasks id with _ | t
  · rw [hl] at hm
    simp at hm
  · rw [hl] at hm
    simp only [Option.bind_some, decide_eq_true_eq] at hm
    have hmem := alookup_mem s.tasks id t hl
    unfold runnableCount
    rw [Nat.succ_le_iff]
    rw [List.countP_pos]
    exact ⟨(id, t), hmem, by simpa using hm⟩

theorem applyOps_preserves_idle (φ : FuncSem) : ∀ (ops : List Op) (s s2 : State),
    IdleInv s → applyOps φ s ops = Except.ok s2 → IdleInv s2 := by
  intro ops
  induction ops with
  | nil =>
    intro s s2 hinv h
    unfold applyOps at h
    simp only [Except.ok.injEq] at h
    subst h
    exact hinv
  | cons op rest ih =>
    intro s s2 hinv h
    unfold applyOps at h
    rcases hop : applyOp φ s op with e | s1
    · simp only [hop] at h
      exact Except.noConfusion h
    · simp only [hop] at h
      refine ih s1 s2 ?_ h
      cases op with
      | reg a =>
        exact register_preserves_idle s a s1 hinv (by unfold applyOp at hop; exact hop)
      | mkRun id =>
        exact idleInv_of_shape hinv
          (make_runnable_shape s id s1 (by unfold applyOp at hop; exact hop))
      | runNext =>
        unfold applyOp at hop
        rcases hrn : powertask_run_next φ s with e | r
        · rw [hrn] at hop
          exact Except.noConfusion hop
        · rw [hrn] at hop
          obtain ⟨b, sx, ev⟩ := r
          simp only [Except.map, Except.ok.injEq] at hop
          subst hop
          exact idleInv_of_shape hinv (run_next_ok_inv φ s b sx ev hrn).2.2

/-! ### C7: the idle task keeps the Runnable Set nonempty -/

/-- C7: the first-ever registration also registers the builtin idle task
(ID 0xFFFF) and makes it runnable (it becomes the cursor); the idle
function always returns the retry code; and from any state satisfying
the bootstrap invariant, no sequence of register / make_runnable /
run_next operations that completes normally ever unsets the idle task's
membership links — so the Runnable Set's size, measured by the code's
own membership flag, is always at least 1. -/
theorem c7_idle_keeps_set_nonempty :
    (∀ a : Attribute, a.ID < 0xFFFF →
      match powertask_register initState a with
      | Except.ok s => IdleInv s ∧ s.runnable_tasks = some 0xFFFF
      | Except.error _ => False) ∧
    (∀ (φ : FuncSem) (s : State),
      callFunction φ idleFuncKey s = (POWERTASK_RESULT_RETRY, [])) ∧
    (∀ (φ : FuncSem) (ops : List Op) (s s2 : State), IdleInv s →
      applyOps φ s ops = Except.ok s2 →
      IdleInv s2 ∧ memberB s2 0xFFFF = true ∧ 1 ≤ runnableCount s2) := by
  refine ⟨?_, fun φ s => rfl, ?_⟩
  · intro a ha
    have hlink : powertask_link_into_tree (Tree.node a.ID Tree.leaf Tree.leaf) 0xFFFF
        = Except.ok (Tree.node a.ID (Tree.node 0xFFFF Tree.leaf Tree.leaf) Tree.leaf) := by
      unfold powertask_link_into_tree
      rw [if_pos ha]
    have hstep : powertask_register initState a
        = powertask_make_runnable (bootMidState a) 0xFFFF := by
      unfold powertask_register powertask_task_register
      simp only [initState, addTaskEntry, attributes_idle_task, bootMidState,
        freshTask] at hlink ⊢
      simp only [hlink]
    rw [hstep]
    have hwalk : lookupWalk (Tree.node a.ID (Tree.node 0xFFFF Tree.leaf Tree.leaf) Tree.leaf)
        0xFFFF = some 0xFFFF := by
      unfold lookupWalk
      rw [if_pos ha]
      simp [lookupWalk]
    have hmk : powertask_make_runnable (bootMidState a) 0xFFFF
        = Except.ok (bootDoneState a) := by
      unfold powertask_make_runnable powertask_task_lookup bootMidState bootDoneState
      simp only [hwalk]
      simp [alookup, setTask, aupdate, powertask_allocate_telemetry, attributes_idle_task,
        freshTask, idleBootTask]
    rw [hmk]
    refine ⟨⟨?_, idleBootTask, ?_, rfl, by simp [idleBootTask], by simp [idleBootTask]⟩, rfl⟩
    · exact hwalk
    · simp [bootDoneState, alookup]
  · intro φ ops s s2 hinv h
    have hinv2 := applyOps_preserves_idle φ ops s s2 hinv h
    have hm := memberB_of_idleInv s2 hinv2
    exact ⟨hinv2, hm, runnableCount_pos s2 0xFFFF hm⟩

/-- C7 at a concrete input: bootstrapping with task A, then making A
runnable and dispatching twice (A retries, idle retries), keeps the
idle task a member. -/
theorem c7_witness :
    (match powertask_register initState attributes_A with
      | Except.ok s => IdleInv s ∧ s.runnable_tasks = some 0xFFFF
      | Except.error _ => False) ∧
    (IdleInv (stateOf spliceScenario) →
      applyOps phiRetry (stateOf spliceScenario) [Op.runNext, Op.runNext]
          = Except.ok (stateOf (applyOps phiRetry (stateOf spliceScenario)
            [Op.runNext, Op.runNext])) →
      IdleInv (stateOf (applyOps phiRetry (stateOf spliceScenario)
          [Op.runNext, Op.runNext])) ∧
        memberB (stateOf (applyOps phiRetry (stateOf spliceScenario)
          [Op.runNext, Op.runNext])) 0xFFFF = true ∧
        1 ≤ runnableCount (stateOf (applyOps phiRetry (stateOf spliceScenario)
          [Op.runNext, Op.runNext]))) ∧
    IdleInv (stateOf spliceScenario) := by
  refine ⟨c7_idle_keeps_set_nonempty.1 attributes_A (by decide), ?_, ?_⟩
  · exact c7_idle_keeps_set_nonempty.2.2 phiRetry [Op.runNext, Op.runNext]
      (stateOf spliceScenario) _
  · exact ⟨rfl, _, rfl, rfl, by decide, by decide⟩

/-! ### C8: cross-task triggering mid-step -/

/-- C8: in the example_ABC scenario (register A, register B, make A
runnable), dispatching task A — whose function writes 'A' (65) to its
own output, calls make_runnable(0xB007) and writes 'B' (66) through the
returned input buffer — leaves task B a member of the circular runnable
list with input payload byte 'B', for EVERY result code A may return
(success, retry, failure without output, failure with output). -/
theorem c8_cross_task_trigger (r : Nat)
    (hr : r = POWERTASK_RESULT_OK ∨ r = POWERTASK_RESULT_RETRY ∨
      (POWERTASK_RESULT_FAIL_QUIET ≤ r ∧ r < POWERTASK_RESULT_FAIL_OUTPUT) ∨
      (POWERTASK_RESULT_FAIL_OUTPUT ≤ r ∧ r < POWERTASK_RESULT_LAST)) :
    ((exampleABCReady.bind (fun s => powertask_run_next (phiABC_res r) s)).map
        (fun x => ((membersList x.2.1).contains 0xB007, inputByte x.2.1 0xB007)))
      = Except.ok (true, some 66) := by
  have hready : exampleABCReady = Except.ok readyState := rfl
  rcases hr with hcase | hcase | ⟨h1, h2⟩ | ⟨h1, h2⟩
  · subst hcase
    rfl
  · subst hcase
    rfl
  · simp only [POWERTASK_RESULT_FAIL_QUIET, POWERTASK_RESULT_FAIL_OUTPUT] at h1 h2
    rw [hready]
    show Except.map (fun x => ((membersList x.2.1).contains 0xB007, inputByte x.2.1 0xB007))
      (powertask_run_next (phiABC_res r) readyState) = Except.ok (true, some 66)
    rw [run_next_invoked (phiABC_res r) readyState 0xA123
      ⟨attributes_A, some ⟨0, 0, []⟩, some ⟨0, 0, [0]⟩, some 0xFFFF, some 0xFFFF⟩
      r [Act.writeOut 0 65, Act.mkRun 0xB007, Act.writeInOf 0xB007 0 66]
      rfl rfl (by decide) rfl (by omega)]
    simp only [show applyActs 0xA123 readyState
        [Act.writeOut 0 65, Act.mkRun 0xB007, Act.writeInOf 0xB007 0 66]
        = Except.ok midABCState from rfl]
    have hnR : ¬ r = POWERTASK_RESULT_RETRY := by
      simp only [POWERTASK_RESULT_RETRY]
      omega
    have hnO : ¬ r = POWERTASK_RESULT_OK := by
      simp only [POWERTASK_RESULT_OK]
      omega
    have hq : POWERTASK_RESULT_FAIL_QUIET ≤ r ∧ r < POWERTASK_RESULT_FAIL_OUTPUT := by
      simp only [POWERTASK_RESULT_FAIL_QUIET, POWERTASK_RESULT_FAIL_OUTPUT]
      omega
    rw [if_neg hnR, if_neg hnO, if_pos hq]
    rfl
  · simp only [POWERTASK_RESULT_FAIL_OUTPUT, POWERTASK_RESULT_LAST] at h1 h2
    rw [hready]
    show Except.map (fun x => ((membersList x.2.1).contains 0xB007, inputByte x.2.1 0xB007))
      (powertask_run_next (phiABC_res r) readyState) = Except.ok (true, some 66)
    rw [run_next_invoked (phiABC_res r) readyState 0xA123
      ⟨attributes_A, some ⟨0, 0, []⟩, some ⟨0, 0, [0]⟩, some 0xFFFF, some 0xFFFF⟩
      r [Act.writeOut 0 65, Act.mkRun 0xB007, Act.writeInOf 0xB007 0 66]
      rfl rfl (by decide) rfl (by omega)]
    simp only [show applyActs 0xA123 readyState
        [Act.writeOut 0 65, Act.mkRun 0xB007, Act.writeInOf 0xB007 0 66]
        = Except.ok midABCState from rfl]
    have hnR : ¬ r = POWERTASK_RESULT_RETRY := by
      simp only [POWERTASK_RESULT_RETRY]
      omega
    have hnO : ¬ r = POWERTASK_RESULT_OK := by
      simp only [POWERTASK_RESULT_OK]
      omega
    have hnq : ¬ (POWERTASK_RESULT_FAIL_QUIET ≤ r ∧ r < POWERTASK_RESULT_FAIL_OUTPUT) := by
      simp only [POWERTASK_RESULT_FAIL_QUIET, POWERTASK_RESULT_FAIL_OUTPUT]
      omega
    have hfo : POWERTASK_RESULT_FAIL_OUTPUT ≤ r ∧ r < POWERTASK_RESULT_LAST := by
      simp only [POWERTASK_RESULT_FAIL_OUTPUT, POWERTASK_RESULT_LAST]
      omega
    rw [if_neg hnR, if_neg hnO, if_neg hnq, if_pos hfo]
    rfl

/-- C8 at the source's own result code: A returns POWERTASK_RESULT_OK. -/
theorem c8_witness :
    ((exampleABCReady.bind (fun s => powertask_run_next (phiABC_res 0x1001) s)).map
        (fun x => ((membersList x.2.1).contains 0xB007, inputByte x.2.1 0xB007)))
      = Except.ok (true, some 66) :=
  c8_cross_task_trigger 0x1001 (Or.inl rfl)

/-! ### C1: removal does not clear the membership links -/

/-- C1: the claim says removal "clears the task's two membership links"
and that the links are the authoritative membership flag.  The code
contradicts this: after registering A, making it runnable and letting it
complete successfully, the dispatcher has unlinked A from the circle
(only the idle task remains reachable from the cursor), yet A's `prev`
and `next` still point at the idle task and the source's own membership
test (`task->prev != 0`) still reports A as a member. -/
theorem c1_removal_leaves_links_set :
    removalScenario.map
        (fun s => (prevOf s 0xA123, nextOf s 0xA123, memberB s 0xA123, membersList s))
      = Except.ok (some 0xFFFF, some 0xFFFF, true, [0xFFFF]) := rfl

/-! ### C2: the splice breaks mutual consistency -/

/-- C2: the claim says the list left by make_runnable is mutually
consistent (every member's successor's predecessor is that member).  The
code contradicts this on the very first splice into a non-empty list:
after registering A and making it runnable, A is a member whose
successor is the idle task (0xFFFF), but the idle task's `prev` still
points at the idle task itself, not at A — `powertask_make_runnable`
never executes a `task->next->prev = task` store. -/
theorem c2_splice_breaks_mutual_consistency :
    (spliceScenario.map
        (fun s => (membersList s, nextOf s 0xA123, prevOf s 0xFFFF))
      = Except.ok ([0xA123, 0xFFFF], some 0xFFFF, some 0xFFFF)) ∧
    (0xFFFF : Nat) ≠ 0xA123 :=
  ⟨rfl, by decide⟩

/-! ### C5: telemetry allocation -/

/-- C5 (counterexample): the claim says the allocated buffer's header is
tagged with the owning task's ID and the declared length.  Registering A
and B and making B (ID 0xB007, input_length 1) runnable allocates B's
input buffer, whose header is (0, 0) — calloc zeroes it and nothing ever
writes the owner ID or the length. -/
theorem c5_counterexample_header_not_tagged :
    (allocScenario.map
        (fun s => ((alookup s.tasks 0xB007).bind (fun t => t.input)).map
          (fun tel => (tel.hdrID, tel.hdrLength)))
      = Except.ok (some (0, 0))) ∧
    ¬((0 : Nat) = 0xB007 ∧ (0 : Nat) = attributes_B.input_length) :=
  ⟨rfl, by decide⟩

/-- C5 (amended): when a task that is not yet a member is made runnable,
each of its buffers that is absent at that moment — input, output, or
both — is allocated zero-initialized throughout: payload bytes all 0 AND
header all 0 (the header is NOT tagged with the owner ID or the declared
length), with payload capacity exactly the descriptor's declared
input_length / output_length for that buffer.  A pre-supplied buffer on
the other side does not disturb this. -/
theorem c5_amended_buffers_zeroed (s : State) (id : Nat) (t : TaskState) (s2 : State)
    (hl : alookup s.tasks id = some t) (hprev : t.prev = none)
    (hok : powertask_make_runnable s id = Except.ok s2) :
    (t.input = none →
      ((alookup s2.tasks id).map fun u => u.input) =
        some (some { hdrID := 0, hdrLength := 0, data := List.replicate t.attr.input_length 0 })) ∧
    (t.output = none →
      ((alookup s2.tasks id).map fun u => u.output) =
        some (some { hdrID := 0, hdrLength := 0, data := List.replicate t.attr.output_length 0 })) := by
  unfold powertask_make_runnable at hok
  rcases htl : powertask_task_lookup s id with e | o
  · simp only [htl] at hok
    exact Except.noConfusion hok
  · cases o with
    | none =>
      simp only [htl] at hok
      exact Except.noConfusion hok
    | some found =>
      simp only [htl, hl, hprev, ne_eq, not_true_eq_false, if_false,
        not_false_eq_true, if_true] at hok
      rcases hrt : s.runnable_tasks with _ | cur
      · simp only [hrt, Except.ok.injEq] at hok
        subst hok
        constructor
        · intro hi
          simp [alookup_setTask, hl, hi, powertask_allocate_telemetry]
        · intro ho
          simp [alookup_setTask, hl, ho, powertask_allocate_telemetry]
      · rcases halc : alookup s.tasks cur with _ | curT
        · simp only [hrt, halc] at hok
          exact Except.noConfusion hok
        · simp only [hrt, halc, Except.ok.injEq] at hok
          subst hok
          by_cases hcid : cur = id
          · subst hcid
            constructor
            · intro hi
              simp [alookup_setTask, hl, hi, powertask_allocate_telemetry]
            · intro ho
              simp [alookup_setTask, hl, ho, powertask_allocate_telemetry]
          · constructor
            · intro hi
              simp [alookup_setTask, hcid, hl, hi, powertask_allocate_telemetry]
            · intro ho
              simp [alookup_setTask, hcid, hl, ho, powertask_allocate_telemetry]

/-- C5 (amended) at concrete inputs, one per quantified case: making
runnable a task with a caller-pre-supplied input buffer and an absent
output buffer allocates only the output, fully zeroed at the declared
length 3; and making B runnable after registration (both buffers absent)
allocates B's input fully zeroed at its declared length 1. -/
theorem c5_amended_witness :
    (((alookup (stateOf (powertask_make_runnable preSuppliedState 5)).tasks 5).map
        fun u => u.output) =
      some (some { hdrID := 0, hdrLength := 0, data := List.replicate 3 0 })) ∧
    (((alookup (stateOf allocScenario).tasks 0xB007).map fun u => u.input) =
      some (some { hdrID := 0, hdrLength := 0, data := List.replicate 1 0 })) :=
  ⟨(c5_amended_buffers_zeroed preSuppliedState 5
      { attr := attrW5, input := some { hdrID := 5, hdrLength := 2, data := [7, 7] },
        output := none, prev := none, next := none }
      (stateOf (powertask_make_runnable preSuppliedState 5)) rfl rfl rfl).2 rfl,
   (c5_amended_buffers_zeroed (stateOf twoRegistered) 0xB007
      { attr := attributes_B, input := none, output := none, prev := none, next := none }
      (stateOf allocScenario) rfl rfl rfl).1 rfl⟩

/-! ### C10: null-dereference preconditions of the public interface -/

/-- C10: powertask_task_lookup dereferences the registry root before any
test, powertask_run_next dereferences the runnable-list cursor before
any test, and powertask_make_runnable goes through lookup — so with an
empty registry (or an empty runnable list, for run_next) each of these
operations hits undefined behaviour instead of reaching its clean error
branch; they require at least one prior registration. -/
theorem c10_null_deref_preconditions :
    (∀ id : Nat, powertask_task_lookup initState id = Except.error Err.ub) ∧
    (∀ (φ : FuncSem) (s : State), s.runnable_tasks = none →
      powertask_run_next φ s = Except.error Err.ub) ∧
    (∀ (s : State) (id : Nat), s.registered_tasks = Tree.leaf →
      powertask_make_runnable s id = Except.error Err.ub) := by
  refine ⟨fun id => rfl, fun φ s h => ?_, fun s id h => ?_⟩
  · unfold powertask_run_next
    rw [h]
  · unfold powertask_make_runnable powertask_task_lookup
    rw [h]

/-- C10 at concrete inputs: each operation on the pristine state is
undefined behaviour. -/
theorem c10_witness :
    powertask_task_lookup initState 0 = Except.error Err.ub ∧
    powertask_run_next (phiConst 0) initState = Except.error Err.ub ∧
    powertask_make_runnable initState 0 = Except.error Err.ub :=
  ⟨c10_null_deref_preconditions.1 0,
   c10_null_deref_preconditions.2.1 (phiConst 0) initState rfl,
   c10_null_deref_preconditions.2.2 initState 0 rfl⟩

/-! ### Toolbox: the ring view of the runnable list -/

theorem getLastD_cons_cons (a b d : Nat) (t : List Nat) :
    (a :: b :: t).getLastD d = (b :: t).getLastD d := by
  rw [List.getLastD_eq_getLast?, List.getLastD_eq_getLast?, List.getLast?_cons_cons]

theorem getLastD_mem_cons : ∀ (l : List Nat) (b : Nat), (b :: l).getLastD 0 ∈ b :: l := by
  intro l
  induction l with
  | nil =>
    intro b
    simp [List.getLastD_eq_getLast?]
  | cons c t ih =>
    intro b
    rw [getLastD_cons_cons]
    exact List.mem_cons_of_mem b (ih c)

theorem ringB_eq_chain (s : State) : ∀ (l : List Nat) (a first : Nat),
    ringB s first a l = (chainB s (a :: l) && linkedB s ((a :: l).getLastD 0) first) := by
  intro l
  induction l with
  | nil =>
    intro a first
    simp [ringB, chainB, List.getLastD_eq_getLast?]
  | cons b t ih =>
    intro a first
    rw [show ringB s first a (b :: t) = (linkedB s a b && ringB s first b t) from rfl,
      ih b first, getLastD_cons_cons,
      show chainB s (a :: b :: t) = (linkedB s a b && chainB s (b :: t)) from rfl,
      Bool.and_assoc]

theorem listRep_ring (s : State) (c : Nat) (rest : List Nat) :
    listRep s (c :: rest) ↔
      s.runnable_tasks = some c ∧ (c :: rest).Nodup ∧ ringB s c c rest = true := by
  constructor
  · rintro ⟨_, hnd, hcur, hch, hcl⟩
    refine ⟨by simpa using hcur, hnd, ?_⟩
    rw [ringB_eq_chain, Bool.and_eq_true]
    exact ⟨hch, by simpa using hcl⟩
  · rintro ⟨hcur, hnd, hring⟩
    rw [ringB_eq_chain, Bool.and_eq_true] at hring
    exact ⟨by simp, hnd, by simpa using hcur, hring.1, by simpa using hring.2⟩

theorem ringB_snoc (s : State) : ∀ (l : List Nat) (a x first : Nat),
    ringB s first a (l ++ [x]) = (ringB s x a l && linkedB s x first) := by
  intro l
  induction l with
  | nil =>
    intro a x first
    simp [ringB]
  | cons b t ih =>
    intro a x first
    rw [List.cons_append,
      show ringB s first a (b :: (t ++ [x]))
        = (linkedB s a b && ringB s first b (t ++ [x])) from rfl,
      ih b x first,
      show ringB s x a (b :: t) = (linkedB s a b && ringB s x b t) from rfl,
      Bool.and_assoc]

theorem ringB_last_link (s : State) : ∀ (l : List Nat) (a first : Nat),
    ringB s first a l = true →
    nextOf s ((a :: l).getLastD 0) = some first ∧
      prevOf s first = some ((a :: l).getLastD 0) := by
  intro l
  induction l with
  | nil =>
    intro a first h
    have h2 : linkedB s a first = true := h
    simp only [linkedB, Bool.and_eq_true, decide_eq_true_eq] at h2
    simpa [List.getLastD_eq_getLast?] using h2
  | cons b t ih =>
    intro a first h
    have h2 : (linkedB s a b && ringB s first b t) = true := h
    rw [Bool.and_eq_true] at h2
    rw [getLastD_cons_cons]
    exact ih b first h2.2

/-! ### Toolbox: link-structure congruence (telemetry stores do not move the list) -/

theorem bindNext_of_map (o : Option TaskState) :
    (o.map tlinks).bind (fun x => x.2.2) = o.bind (fun t => t.next) := by
  cases o <;> rfl

theorem bindPrev_of_map (o : Option TaskState) :
    (o.map tlinks).bind (fun x => x.2.1) = o.bind (fun t => t.prev) := by
  cases o <;> rfl

theorem structProj_lookup : ∀ (l l2 : List (Nat × TaskState)),
    structProj l2 = structProj l →
    ∀ id, (alookup l2 id).map tlinks = (alookup l id).map tlinks := by
  intro l
  induction l with
  | nil =>
    intro l2 h id
    cases l2 with
    | nil => rfl
    | cons q r2 => simp [structProj] at h
  | cons p r ih =>
    intro l2 h id
    cases l2 with
    | nil => simp [structProj] at h
    | cons q r2 =>
      obtain ⟨a, t⟩ := p
      obtain ⟨a2, t2⟩ := q
      simp only [structProj, List.map_cons, List.cons.injEq, Prod.mk.injEq] at h
      obtain ⟨⟨hkey, hat, hpv, hnx⟩, hrest⟩ := h
      subst hkey
      by_cases hid : a2 = id
      · subst hid
        simp [alookup, tlinks, hat, hpv, hnx]
      · simp only [alookup, if_neg hid]
        exact ih r2 hrest id

theorem nextOf_congr (s s2 : State) (h : structProj s2.tasks = structProj s.tasks)
    (id : Nat) : nextOf s2 id = nextOf s id := by
  have h2 := structProj_lookup s.tasks s2.tasks h id
  unfold nextOf
  rw [← bindNext_of_map, ← bindNext_of_map, h2]

theorem prevOf_congr (s s2 : State) (h : structProj s2.tasks = structProj s.tasks)
    (id : Nat) : prevOf s2 id = prevOf s id := by
  have h2 := structProj_lookup s.tasks s2.tasks h id
  unfold prevOf
  rw [← bindPrev_of_map, ← bindPrev_of_map, h2]

theorem linkedB_congr (s s2 : State) (h : structProj s2.tasks = structProj s.tasks)
    (a b : Nat) : linkedB s2 a b = linkedB s a b := by
  unfold linkedB
  rw [nextOf_congr s s2 h, prevOf_congr s s2 h]

theorem ringB_congr (s s2 : State) (h : structProj s2.tasks = structProj s.tasks) :
    ∀ (l : List Nat) (a first : Nat), ringB s2 first a l = ringB s first a l := by
  intro l
  induction l with
  | nil =>
    intro a first
    exact linkedB_congr s s2 h a first
  | cons b t ih =>
    intro a first
    rw [show ringB s2 first a (b :: t) = (linkedB s2 a b && ringB s2 first b t) from rfl,
      show ringB s first a (b :: t) = (linkedB s a b && ringB s first b t) from rfl,
      linkedB_congr s s2 h a b, ih b first]

theorem listRep_congr (s s2 : State) (hproj : structProj s2.tasks = structProj s.tasks)
    (hcur : s2.runnable_tasks = s.runnable_tasks) :
    ∀ l : List Nat, listRep s l → listRep s2 l := by
  intro l h
  cases l with
  | nil => exact absurd rfl h.1
  | cons c rest =>
    rw [listRep_ring] at h ⊢
    exact ⟨hcur.trans h.1, h.2.1, (ringB_congr s s2 hproj rest c c).trans h.2.2⟩

theorem structProj_aupdate (f : TaskState → TaskState)
    (hf : ∀ t, (f t).attr = t.attr ∧ (f t).prev = t.prev ∧ (f t).next = t.next) :
    ∀ (l : List (Nat × TaskState)) (k : Nat), structProj (aupdate f l k) = structProj l := by
  intro l
  induction l with
  | nil =>
    intro k
    rfl
  | cons p r ih =>
    intro k
    obtain ⟨a, t⟩ := p
    by_cases hak : a = k
    · simp only [aupdate, if_pos hak, structProj, List.map_cons]
      rw [(hf t).1, (hf t).2.1, (hf t).2.2]
    · simp only [aupdate, if_neg hak, structProj, List.map_cons]
      exact congrArg _ (ih k)

theorem applyActs_noSplice (self : Nat) : ∀ (acts : List Act),
    (∀ a ∈ acts, ∃ i v, a = Act.writeOut i v) → ∀ (s s2 : State),
    applyActs self s acts = Except.ok s2 →
    structProj s2.tasks = structProj s.tasks ∧
      s2.runnable_tasks = s.runnable_tasks ∧ s2.battery = s.battery := by
  intro acts
  induction acts with
  | nil =>
    intro _ s s2 h
    unfold applyActs at h
    simp only [Except.ok.injEq] at h
    subst h
    exact ⟨rfl, rfl, rfl⟩
  | cons a rest ih =>
    intro hno s s2 h
    unfold applyActs at h
    rcases ha : applyAct self s a with e | s1
    · simp only [ha] at h
      exact Except.noConfusion h
    · simp only [ha] at h
      obtain ⟨i, v, hav⟩ := hno a (List.mem_cons_self a rest)
      subst hav
      unfold applyAct at ha
      rcases hl : alookup s.tasks self with _ | t
      · simp only [hl] at ha
        exact Except.noConfusion ha
      · rcases ho : t.output with _ | tel
        · simp only [hl, ho] at ha
          exact Except.noConfusion ha
        · simp only [hl, ho, Except.ok.injEq] at ha
          subst ha
          obtain ⟨hp1, hc1, hb1⟩ := ih (fun a2 ha2 => hno a2 (List.mem_cons_of_mem _ ha2))
            (setTask s self fun t0 => { t0 with output := some (writeData tel i v) }) s2 h
          refine ⟨?_, hc1, hb1⟩
          rw [hp1]
          exact structProj_aupdate
            (fun t0 => { t0 with output := some (writeData tel i v) })
            (fun u => ⟨rfl, rfl, rfl⟩) s.tasks self

/-! ### Toolbox: the exact link updates of remove_task -/

theorem remove_task_eq2 (s : State) (id : Nat) (t : TaskState) (p n : Nat)
    (hl : alookup s.tasks id = some t) (hp : t.prev = some p) (hn : t.next = some n) :
    remove_task s id = Except.ok (
      if s.runnable_tasks = some id then
        { setTask (setTask s p (fun tp => { tp with next := some n })) n
            (fun tn => { tn with prev := some p }) with runnable_tasks := some n }
      else
        setTask (setTask s p (fun tp => { tp with next := some n })) n
          (fun tn => { tn with prev := some p })) := by
  rw [remove_task_eq s id t p n hl hp hn]

theorem remove_task_links (s : State) (id : Nat) (t : TaskState) (p n : Nat) (s2 : State)
    (hl : alookup s.tasks id = some t) (hp : t.prev = some p) (hn : t.next = some n)
    (hpe : (alookup s.tasks p).isSome = true) (hne : (alookup s.tasks n).isSome = true)
    (h : remove_task s id = Except.ok s2) :
    (∀ u, u ≠ p → nextOf s2 u = nextOf s u) ∧ nextOf s2 p = some n ∧
    (∀ u, u ≠ n → prevOf s2 u = prevOf s u) ∧ prevOf s2 n = some p ∧
    s2.runnable_tasks = (if s.runnable_tasks = some id then some n else s.runnable_tasks) := by
  rw [remove_task_eq2 s id t p n hl hp hn] at h
  simp only [Except.ok.injEq] at h
  obtain ⟨tp, htp⟩ := Option.isSome_iff_exists.mp hpe
  obtain ⟨tn, htn⟩ := Option.isSome_iff_exists.mp hne
  have hnx : ∀ u, u ≠ p → nextOf (setTask (setTask s p
      (fun tp2 => { tp2 with next := some n })) n
      (fun tn2 => { tn2 with prev := some p })) u = nextOf s u := by
    intro u hu
    unfold nextOf
    rw [alookup_setTask, alookup_setTask]
    by_cases hnu : n = u
    · subst hnu
      rw [if_pos rfl, if_neg (fun hpu => hu hpu.symm), htn]
      rfl
    · rw [if_neg hnu, if_neg (fun hpu => hu hpu.symm)]
  have hnp : nextOf (setTask (setTask s p
      (fun tp2 => { tp2 with next := some n })) n
      (fun tn2 => { tn2 with prev := some p })) p = some n := by
    unfold nextOf
    rw [alookup_setTask, alookup_setTask]
    by_cases hnp2 : n = p
    · subst hnp2
      rw [if_pos rfl, if_pos rfl, htp]
      rfl
    · rw [if_neg hnp2, if_pos rfl, htp]
      rfl
  have hpv : ∀ u, u ≠ n → prevOf (setTask (setTask s p
      (fun tp2 => { tp2 with next := some n })) n
      (fun tn2 => { tn2 with prev := some p })) u = prevOf s u := by
    intro u hu
    unfold prevOf
    rw [alookup_setTask, alookup_setTask]
    rw [if_neg (fun hnu => hu hnu.symm)]
    by_cases hpu : p = u
    · subst hpu
      rw [if_pos rfl, htp]
      rfl
    · rw [if_neg hpu]
  have hpp : prevOf (setTask (setTask s p
      (fun tp2 => { tp2 with next := some n })) n
      (fun tn2 => { tn2 with prev := some p })) n = some p := by
    unfold prevOf
    rw [alookup_setTask, alookup_setTask]
    by_cases hpn : p = n
    · subst hpn
      rw [if_pos rfl, if_pos rfl, htp]
      rfl
    · rw [if_pos rfl, if_neg hpn, htn]
      rfl
  by_cases hq : s.runnable_tasks = some id
  · rw [if_pos hq] at h
    subst h
    rw [if_pos hq]
    exact ⟨hnx, hnp, hpv, hpp, rfl⟩
  · rw [if_neg hq] at h
    subst h
    rw [if_neg hq]
    exact ⟨hnx, hnp, hpv, hpp, rfl⟩

theorem alookup_isSome_of_nextOf (s : State) (id b : Nat) (h : nextOf s id = some b) :
    (alookup s.tasks id).isSome = true := by
  unfold nextOf at h
  rcases ha : alookup s.tasks id with _ | t
  · rw [ha] at h
    simp at h
  · rfl

theorem alookup_isSome_of_prevOf (s : State) (id b : Nat) (h : prevOf s id = some b) :
    (alookup s.tasks id).isSome = true := by
  unfold prevOf at h
  rcases ha : alookup s.tasks id with _ | t
  · rw [ha] at h
    simp at h
  · rfl

theorem entry_of_links (s : State) (id a b : Nat)
    (h1 : prevOf s id = some a) (h2 : nextOf s id = some b) :
    ∃ t, alookup s.tasks id = some t ∧ t.prev = some a ∧ t.next = some b := by
  unfold prevOf at h1
  unfold nextOf at h2
  rcases ha : alookup s.tasks id with _ | t
  · rw [ha] at h1
    simp at h1
  · rw [ha] at h1 h2
    exact ⟨t, rfl, h1, h2⟩

/-! ### Toolbox: removing the cursor task and rotating past it preserve listRep -/

theorem ringB_reclose (s s2 : State) (p r0 h0 : Nat)
    (hnext : ∀ u, u ≠ p → nextOf s2 u = nextOf s u) (hnp : nextOf s2 p = some r0)
    (hprev : ∀ u, u ≠ r0 → prevOf s2 u = prevOf s u) (hpr : prevOf s2 r0 = some p) :
    ∀ (l : List Nat) (a : Nat), ringB s h0 a l = true → (a :: l).Nodup → r0 ∉ l →
      (a :: l).getLastD 0 = p → ringB s2 r0 a l = true := by
  intro l
  induction l with
  | nil =>
    intro a _ _ _ hlast
    have ha : a = p := by simpa [List.getLastD_eq_getLast?] using hlast
    subst ha
    show linkedB s2 a r0 = true
    simp only [linkedB, Bool.and_eq_true, decide_eq_true_eq]
    exact ⟨hnp, hpr⟩
  | cons b t ih =>
    intro a hring hnd hr0 hlast
    have h2 : (linkedB s a b && ringB s h0 b t) = true := hring
    rw [Bool.and_eq_true] at h2
    have hlast2 : (b :: t).getLastD 0 = p := by
      rw [getLastD_cons_cons] at hlast
      exact hlast
    have hap : a ≠ p := by
      intro hap
      have hmem : p ∈ b :: t := hlast2 ▸ getLastD_mem_cons t b
      rw [← hap] at hmem
      exact (List.nodup_cons.mp hnd).1 hmem
    have hbr0 : b ≠ r0 := by
      intro hb
      rw [hb] at hr0
      exact hr0 (List.mem_cons_self r0 t)
    show (linkedB s2 a b && ringB s2 r0 b t) = true
    rw [Bool.and_eq_true]
    constructor
    · have hl2 := h2.1
      simp only [linkedB, Bool.and_eq_true, decide_eq_true_eq] at hl2 ⊢
      exact ⟨(hnext a hap).trans hl2.1, (hprev b hbr0).trans hl2.2⟩
    · exact ih b h2.2 (List.nodup_cons.mp hnd).2
        (fun hm => hr0 (List.mem_cons_of_mem b hm)) hlast2

theorem listRep_remove_head (s : State) (h0 r0 : Nat) (rest' : List Nat)
    (hrep : listRep s (h0 :: r0 :: rest')) (s2 : State)
    (hrm : remove_task s h0 = Except.ok s2) : listRep s2 (r0 :: rest') := by
  rw [listRep_ring] at hrep
  obtain ⟨hcur, hnd, hringb⟩ := hrep
  have h2 : (linkedB s h0 r0 && ringB s h0 r0 rest') = true := hringb
  rw [Bool.and_eq_true] at h2
  have hl : nextOf s h0 = some r0 ∧ prevOf s r0 = some h0 := by
    have := h2.1
    simpa [linkedB] using this
  obtain ⟨hlast_next, hlast_prev⟩ := ringB_last_link s rest' r0 h0 h2.2
  obtain ⟨t, hT, hTp, hTn⟩ :=
    entry_of_links s h0 ((r0 :: rest').getLastD 0) r0 hlast_prev hl.1
  have hpe : (alookup s.tasks ((r0 :: rest').getLastD 0)).isSome = true :=
    alookup_isSome_of_nextOf s _ h0 hlast_next
  have hne : (alookup s.tasks r0).isSome = true :=
    alookup_isSome_of_prevOf s r0 h0 hl.2
  obtain ⟨hnx, hnp, hpv, hpp, hcur2⟩ :=
    remove_task_links s h0 t ((r0 :: rest').getLastD 0) r0 s2 hT hTp hTn hpe hne hrm
  rw [listRep_ring]
  refine ⟨?_, (List.nodup_cons.mp hnd).2, ?_⟩
  · rw [hcur2, if_pos hcur]
  · exact ringB_reclose s s2 ((r0 :: rest').getLastD 0) r0 h0 hnx hnp hpv hpp rest' r0
      h2.2 (List.nodup_cons.mp hnd).2
      (List.nodup_cons.mp (List.nodup_cons.mp hnd).2).1 rfl

theorem listRep_rotate (s s2 : State) (h0 : Nat) (rest : List Nat)
    (hrep : listRep s (h0 :: rest))
    (hproj : structProj s2.tasks = structProj s.tasks)
    (hcur : s2.runnable_tasks = nextOf s h0) :
    listRep s2 (rest ++ [h0]) := by
  rw [listRep_ring] at hrep
  obtain ⟨hc0, hnd, hring⟩ := hrep
  cases rest with
  | nil =>
    have hl : nextOf s h0 = some h0 ∧ prevOf s h0 = some h0 := by
      have h2 : linkedB s h0 h0 = true := hring
      simpa [linkedB] using h2
    show listRep s2 [h0]
    rw [listRep_ring]
    refine ⟨?_, by simp, ?_⟩
    · rw [hcur, hl.1]
    · show linkedB s2 h0 h0 = true
      rw [linkedB_congr s s2 hproj]
      exact hring
  | cons r0 rest' =>
    have h2 : (linkedB s h0 r0 && ringB s h0 r0 rest') = true := hring
    rw [Bool.and_eq_true] at h2
    have hl : nextOf s h0 = some r0 ∧ prevOf s r0 = some h0 := by
      have := h2.1
      simpa [linkedB] using this
    show listRep s2 (r0 :: (rest' ++ [h0]))
    rw [listRep_ring]
    refine ⟨?_, ?_, ?_⟩
    · rw [hcur, hl.1]
    · have hnd2 : ((r0 :: rest') ++ [h0]).Nodup := by
        rw [List.nodup_append_comm]
        exact hnd
      exact hnd2
    · rw [ringB_snoc, Bool.and_eq_true]
      constructor
      · rw [ringB_congr s s2 hproj]
        exact h2.2
      · rw [linkedB_congr s s2 hproj]
        exact h2.1

/-! ### Toolbox: one dispatch step of a splice-free window -/

theorem ran_of_admitted (φ : FuncSem) (s : State) (b : Bool) (s2 : State) (ev : Event)
    (tid : Nat) (task : TaskState)
    (hc : s.runnable_tasks = some tid) (hl : alookup s.tasks tid = some task)
    (hb : task.attr.minimum_battery ≤ s.battery)
    (h : powertask_run_next φ s = Except.ok (b, s2, ev)) : ev.ran = some tid := by
  unfold powertask_run_next at h
  simp only [hc, hl] at h
  rw [if_pos hb] at h
  rcases hacts : applyActs tid s (callFunction φ task.attr.func s).2 with e | s1
  · simp only [hacts] at h
    exact Except.noConfusion h
  · simp only [hacts] at h
    split at h
    · obtain ⟨he, _⟩ := advanceAfter_ok _ _ _ _ _ h
      rw [he]
    · split at h
      · obtain ⟨he, _⟩ := removeAfter_ok _ _ _ _ _ _ h
        rw [he]
      · split at h
        · obtain ⟨he, _⟩ := removeAfter_ok _ _ _ _ _ _ h
          rw [he]
        · split at h
          · obtain ⟨he, _⟩ := removeAfter_ok _ _ _ _ _ _ h
            rw [he]
          · exact Except.noConfusion h

theorem step_window (φ : FuncSem) (hφ : NoSplice φ) (s : State) (h0 : Nat) (rest : List Nat)
    (hrep : listRep s (h0 :: rest)) (hrest : rest ≠ [])
    (b : Bool) (s2 : State) (ev : Event)
    (hstep : powertask_run_next φ s = Except.ok (b, s2, ev)) :
    listRep s2 (rest ++ [h0]) ∨
      (listRep s2 rest ∧ ∃ t, alookup s.tasks h0 = some t ∧
        (callFunction φ t.attr.func s).1 % 65536 ≠ POWERTASK_RESULT_RETRY) := by
  obtain ⟨r0, rest', hrr⟩ : ∃ r0 rest', rest = r0 :: rest' := by
    cases rest with
    | nil => exact absurd rfl hrest
    | cons a l => exact ⟨a, l, rfl⟩
  subst hrr
  obtain ⟨hcur, hnd, hringb⟩ := (listRep_ring s h0 (r0 :: rest')).mp hrep
  have h2 : (linkedB s h0 r0 && ringB s h0 r0 rest') = true := hringb
  rw [Bool.and_eq_true] at h2
  have hl : nextOf s h0 = some r0 ∧ prevOf s r0 = some h0 := by
    have := h2.1
    simpa [linkedB] using this
  rcases halo : alookup s.tasks h0 with _ | task
  · exfalso
    have h3 : (alookup s.tasks h0).bind (fun t => t.next) = some r0 := hl.1
    rw [halo] at h3
    simp at h3
  · unfold powertask_run_next at hstep
    simp only [hcur, halo] at hstep
    by_cases hbat : task.attr.minimum_battery ≤ s.battery
    · rw [if_pos hbat] at hstep
      have hno : ∀ a ∈ (callFunction φ task.attr.func s).2, ∃ i v, a = Act.writeOut i v := by
        intro a ha
        unfold callFunction at ha
        by_cases hfk : task.attr.func = idleFuncKey
        · rw [if_pos hfk] at ha
          exact absurd ha (List.not_mem_nil a)
        · rw [if_neg hfk] at ha
          exact hφ task.attr.func s a ha
      rcases hacts : applyActs h0 s (callFunction φ task.attr.func s).2 with e | s1
      · simp only [hacts] at hstep
        exact Except.noConfusion hstep
      · simp only [hacts] at hstep
        obtain ⟨hproj1, hcur1, hbat1⟩ :=
          applyActs_noSplice h0 (callFunction φ task.attr.func s).2 hno s s1 hacts
        have hrep1 : listRep s1 (h0 :: r0 :: rest') := listRep_congr s s1 hproj1 hcur1 _ hrep
        split at hstep
        · obtain ⟨he, ht, hb2, hr2, ⟨c, ct, hc1, hct, hcur2⟩, _⟩ :=
            advanceAfter_ok s1 _ b s2 ev hstep
          left
          refine listRep_rotate s s2 h0 (r0 :: rest') hrep ?_ ?_
          · rw [ht]
            exact hproj1
          · rw [hcur1, hcur] at hc1
            injection hc1 with hc1e
            rw [hcur2]
            have hctn : nextOf s1 c = ct.next := by
              show (alookup s1.tasks c).bind (fun t => t.next) = ct.next
              rw [hct]
              rfl
            rw [← hctn, ← hc1e]
            exact nextOf_congr s s1 hproj1 h0
        · rename_i hres1
          split at hstep
          · obtain ⟨he, hrm, _⟩ := removeAfter_ok s1 h0 _ b s2 ev hstep
            right
            exact ⟨listRep_remove_head s1 h0 r0 rest' hrep1 s2 hrm, task, by simp [halo], hres1⟩
          · split at hstep
            · obtain ⟨he, hrm, _⟩ := removeAfter_ok s1 h0 _ b s2 ev hstep
              right
              exact ⟨listRep_remove_head s1 h0 r0 rest' hrep1 s2 hrm, task, by simp [halo], hres1⟩
            · split at hstep
              · obtain ⟨he, hrm, _⟩ := removeAfter_ok s1 h0 _ b s2 ev hstep
                right
                exact ⟨listRep_remove_head s1 h0 r0 rest' hrep1 s2 hrm, task,
                  by simp [halo], hres1⟩
              · exact Except.noConfusion hstep
    · rw [if_neg hbat] at hstep
      obtain ⟨hs2, hev, _⟩ := finish_ok _ _ b s2 ev hstep
      left
      subst hs2
      refine listRep_rotate s _ h0 (r0 :: rest') hrep rfl ?_
      show task.next = nextOf s h0
      rw [show nextOf s h0 = (alookup s.tasks h0).bind (fun t => t.next) from rfl, halo]
      rfl

/-! ### Toolbox: decomposing a run of dispatch steps -/

theorem stepsTo_split (φ : FuncSem) : ∀ (j k : Nat) (s s2 : State),
    stepsTo φ (j + k) s = Except.ok s2 →
    ∃ s1, stepsTo φ j s = Except.ok s1 ∧ stepsTo φ k s1 = Except.ok s2 := by
  intro j
  induction j with
  | zero =>
    intro k s s2 h
    rw [Nat.zero_add] at h
    exact ⟨s, rfl, h⟩
  | succ j ih =>
    intro k s s2 h
    rw [Nat.succ_add] at h
    unfold stepsTo at h
    rcases hr : powertask_run_next φ s with e | r
    · simp only [hr] at h
      exact Except.noConfusion h
    · simp only [hr] at h
      obtain ⟨s1, h1, h2⟩ := ih k r.2.1 s2 h
      refine ⟨s1, ?_, h2⟩
      unfold stepsTo
      simp only [hr]
      exact h1

theorem stepsTo_succ_inv (φ : FuncSem) (m : Nat) (s s2 : State)
    (h : stepsTo φ (m + 1) s = Except.ok s2) :
    ∃ r, powertask_run_next φ s = Except.ok r ∧ stepsTo φ m r.2.1 = Except.ok s2 := by
  unfold stepsTo at h
  rcases hr : powertask_run_next φ s with e | r
  · simp only [hr] at h
    exact Except.noConfusion h
  · simp only [hr] at h
    exact ⟨r, rfl, h⟩

theorem stepsTo_snoc (φ : FuncSem) : ∀ (k : Nat) (s sk : State) (r : Bool × State × Event),
    stepsTo φ k s = Except.ok sk → powertask_run_next φ sk = Except.ok r →
    stepsTo φ (k + 1) s = Except.ok r.2.1 := by
  intro k
  induction k with
  | zero =>
    intro s sk r hk hr
    unfold stepsTo at hk
    simp only [Except.ok.injEq] at hk
    subst hk
    unfold stepsTo
    simp only [hr]
    rfl
  | succ k ih =>
    intro s sk r hk hr
    unfold stepsTo at hk
    rcases h0 : powertask_run_next φ s with e | r0
    · simp only [h0] at hk
      exact Except.noConfusion hk
    · simp only [h0] at hk
      have h1 := ih r0.2.1 sk r hk hr
      show stepsTo φ (k + 1 + 1) s = Except.ok r.2.1
      unfold stepsTo
      simp only [h0]
      exact h1

/-! ### C9 (amended): splice-free round-robin fairness -/

/-- C9 (amended): fix a dispatch window of `n` steps starting from a
well-formed runnable circle with the cursor on a task T: T's function is
about to run and asks to be retried (and its battery minimum is met), T
is not executed again before step `n`, and no task function performs a
mid-step powertask_make_runnable splice (every function only writes its
own output buffer).  Then every other member X of the circle reaches the
cursor at most once inside the window: two in-window steps that both
start with the cursor on X are the same step.  This is the claim's
round-robin guarantee, restored under the explicit provision that no
make_runnable call moves the list mid-window (the unamended claim is
refuted by `c9_counterexample_double_attempt`). -/
theorem c9_amended_no_splice_round_robin (φ : FuncSem) (hφ : NoSplice φ)
    (s0 : State) (T : Nat) (rest : List Nat) (hrep : listRep s0 (T :: rest))
    (t0 : TaskState) (acts0 : List Act)
    (hT0 : alookup s0.tasks T = some t0)
    (hbat : t0.attr.minimum_battery ≤ s0.battery)
    (hretry : callFunction φ t0.attr.func s0 = (POWERTASK_RESULT_RETRY, acts0))
    (n : Nat) (sn : State) (hsteps : stepsTo φ n s0 = Except.ok sn)
    (hwin : ∀ k, 0 < k → k < n → ranAt φ s0 k ≠ some T)
    (X : Nat) (hX : X ∈ rest)
    (k1 k2 : Nat) (hk11 : 0 < k1) (hk12 : k1 < n) (hk21 : 0 < k2) (hk22 : k2 < n)
    (hsel1 : selectedAt φ s0 k1 = some X) (hsel2 : selectedAt φ s0 k2 = some X) :
    k1 = k2 := by
  have hinv : ∀ j, j < n → ∃ sj tail, stepsTo φ (j + 1) s0 = Except.ok sj ∧
      listRep sj (rest.drop j ++ T :: tail) := by
    intro j
    induction j with
    | zero =>
      intro h0n
      obtain ⟨m, hm⟩ : ∃ m, n = m + 1 := ⟨n - 1, by omega⟩
      have hs' := hsteps
      rw [hm] at hs'
      obtain ⟨r, hr, _⟩ := stepsTo_succ_inv φ m s0 sn hs'
      obtain ⟨b0, s1, ev0⟩ := r
      have h1 : stepsTo φ 1 s0 = Except.ok s1 :=
        stepsTo_snoc φ 0 s0 s0 (b0, s1, ev0) rfl hr
      have hrest_ne : rest ≠ [] := by
        intro hc
        rw [hc] at hX
        exact List.not_mem_nil X hX
      cases step_window φ hφ s0 T rest hrep hrest_ne b0 s1 ev0 hr with
      | inl h =>
        refine ⟨s1, [], h1, ?_⟩
        rw [List.drop_zero]
        exact h
      | inr h =>
        obtain ⟨_, t', ht', hne2⟩ := h
        rw [hT0] at ht'
        injection ht' with heq
        rw [← heq, hretry] at hne2
        have hlt : POWERTASK_RESULT_RETRY < 65536 := by decide
        exact absurd (Nat.mod_eq_of_lt hlt) hne2
    | succ j ihj =>
      intro hjn
      obtain ⟨sj, tail, hsj, hrepj⟩ := ihj (by omega)
      obtain ⟨m2, hm2⟩ : ∃ m2, n = (j + 1) + (m2 + 1) := ⟨n - (j + 2), by omega⟩
      have hs' := hsteps
      rw [hm2] at hs'
      obtain ⟨sj', hsj', hrest2⟩ := stepsTo_split φ (j + 1) (m2 + 1) s0 sn hs'
      rw [hsj] at hsj'
      injection hsj' with heq
      subst heq
      obtain ⟨r, hr, _⟩ := stepsTo_succ_inv φ m2 sj sn hrest2
      obtain ⟨b2, snew, ev2⟩ := r
      rcases hdrop : rest.drop j with _ | ⟨p0, pend'⟩
      · exfalso
        rw [hdrop] at hrepj
        have hcurj : sj.runnable_tasks = some T := by
          have h3 := hrepj.2.2.1
          simpa using h3
        have hshape := stepsTo_shape φ (j + 1) s0 sj hsj
        obtain ⟨tj, hlj, haj⟩ := hshape.2.2.1 T t0 hT0
        have hbj : tj.attr.minimum_battery ≤ sj.battery := by
          rw [haj, hshape.1]
          exact hbat
        have hran := ran_of_admitted φ sj b2 snew ev2 T tj hcurj hlj hbj hr
        have hra : ranAt φ s0 (j + 1) = some T := by
          unfold ranAt
          simp only [hsj, hr]
          exact hran
        exact hwin (j + 1) (by omega) hjn hra
      · rw [hdrop] at hrepj
        have hrepj2 : listRep sj (p0 :: (pend' ++ T :: tail)) := by
          rw [← List.cons_append]
          exact hrepj
        have hne3 : pend' ++ T :: tail ≠ [] := by
          simp
        have hns : stepsTo φ (j + 1 + 1) s0 = Except.ok snew :=
          stepsTo_snoc φ (j + 1) s0 sj (b2, snew, ev2) hsj hr
        have hdrop1 : rest.drop (j + 1) = pend' := by
          rw [← List.tail_drop, hdrop]
          rfl
        cases step_window φ hφ sj p0 (pend' ++ T :: tail) hrepj2 hne3 b2 snew ev2 hr with
        | inl h =>
          refine ⟨snew, tail ++ [p0], hns, ?_⟩
          rw [hdrop1]
          have h4 : (pend' ++ T :: tail) ++ [p0] = pend' ++ T :: (tail ++ [p0]) := by
            simp
          rw [← h4]
          exact h
        | inr h =>
          refine ⟨snew, tail, hns, ?_⟩
          rw [hdrop1]
          exact h.1
  have hselX : ∀ k, 0 < k → k < n → selectedAt φ s0 k = some X →
      rest[k - 1]? = some X := by
    intro k hk0 hkn hsel
    obtain ⟨j, rfl⟩ : ∃ j, k = j + 1 := ⟨k - 1, by omega⟩
    obtain ⟨sj, tail, hsj, hrepj⟩ := hinv j (by omega)
    unfold selectedAt at hsel
    simp only [hsj] at hsel
    have hcurj := hrepj.2.2.1
    rcases hdrop : rest.drop j with _ | ⟨p0, pend'⟩
    · exfalso
      rw [hdrop] at hcurj
      simp only [List.nil_append, List.head?_cons] at hcurj
      rw [hcurj] at hsel
      injection hsel with hTX
      have hTnotin : T ∉ rest := (List.nodup_cons.mp hrep.2.1).1
      rw [hTX] at hTnotin
      exact hTnotin hX
    · rw [hdrop] at hcurj
      simp only [List.cons_append, List.head?_cons] at hcurj
      rw [hcurj] at hsel
      injection hsel with hpX
      have hh : rest[j]? = some p0 := by
        rw [← List.head?_drop, hdrop]
        rfl
      simp only [Nat.add_sub_cancel]
      rw [hh, hpX]
  have hv1 := hselX k1 hk11 hk12 hsel1
  have hv2 := hselX k2 hk21 hk22 hsel2
  have hndr : rest.Nodup := (List.nodup_cons.mp hrep.2.1).2
  have hlen : k1 - 1 < rest.length := by
    rcases List.getElem?_eq_some_iff.mp hv1 with ⟨hi, _⟩
    exact hi
  have hind := List.getElem?_inj hlen hndr (hv1.trans hv2.symm)
  omega

/-- C9 (amended) at a concrete input: on the mutually consistent
two-member circle [1, 2] under the all-retry, effect-free function table,
with a 2-step window in which task 1 is retried at step 0 and runs again
at step 2, the only in-window step whose cursor is on task 2 is step 1. -/
theorem c9_amended_witness :
    listRep pairState [1, 2] ∧ selectedAt phiRetry pairState 1 = some 2 ∧ (1 : Nat) = 1 :=
  ⟨by decide, by decide,
   c9_amended_no_splice_round_robin phiRetry
    (fun k s a ha => absurd ha (List.not_mem_nil a)) pairState 1 [2] (by decide)
    { attr := attrW1, input := some { hdrID := 0, hdrLength := 0, data := [] },
      output := some { hdrID := 0, hdrLength := 0, data := [] },
      prev := some 2, next := some 2 }
    [] rfl (by decide) rfl 2 (stateOf (stepsTo phiRetry 2 pairState)) rfl
    (by
      intro k h1 h2
      have hk : k = 1 := by omega
      rw [hk]
      decide)
    2 (by decide) 1 1 (by decide) (by decide) (by decide) (by decide) (by decide) (by decide)⟩

/-! ### C9 (counterexample): round-robin broken by a mid-window splice -/

/-- C9 (counterexample): task T (0x2001) is executed and returns retry;
five dispatch steps later T is executed again; in between, task X
(0x3001) — a member of the Runnable Set at T's first execution, cursor
order [T, X, idle] — is attempted twice (the third window step's
make_runnable splices N (0x4001) next to the cursor while the cursor
stands on T, pushing T behind X in the rotation without T being
attempted). -/
theorem c9_counterexample_double_attempt :
    membersAfter opsSetup = some [0x2001, 0x3001, 0xFFFF] ∧
    evAfter opsSetup = some 0x2001 ∧
    evAfter (opsSetup ++ [Op.runNext]) = some 0x3001 ∧
    evAfter (opsSetup ++ [Op.runNext, Op.runNext]) = some 0xFFFF ∧
    evAfter (opsSetup ++ [Op.runNext, Op.runNext, Op.runNext, Op.mkRun 0x4001])
      = some 0x4001 ∧
    evAfter (opsSetup ++ [Op.runNext, Op.runNext, Op.runNext, Op.mkRun 0x4001,
        Op.runNext]) = some 0x3001 ∧
    evAfter (opsSetup ++ [Op.runNext, Op.runNext, Op.runNext, Op.mkRun 0x4001,
        Op.runNext, Op.runNext]) = some 0xFFFF ∧
    evAfter (opsSetup ++ [Op.runNext, Op.runNext, Op.runNext, Op.mkRun 0x4001,
        Op.runNext, Op.runNext, Op.runNext]) = some 0x2001 :=
  ⟨rfl, rfl, rfl, rfl, rfl, rfl, rfl, rfl⟩

end Powertask
